import Mathlib

/-!
Verification development for the webrtc-rs/ortc transport substrate.

This file gives a shallow embedding, in Lean, of the DTLS connection and
handshake engine (`dtls/src/conn/mod.rs`, `dtls/src/handshaker.rs`) and of
the ICE agent core (`rtc-ice/src/agent/mod.rs`), and proves or refutes the
behavioural claims stated about them.  Machine integers are modelled as
`Nat` with explicit `% 2^w` where the Rust source performs a narrowing
cast; fallible operations return `Except`/`Option`.  Where a helper lives
in a module that is not part of the examined sources (wire-format
marshalling, the candidate-pair constructor, the connectivity selector),
the corresponding Lean definition is marked `Modelled from the spec:` and
follows the specification text for that helper.
-/

set_option maxHeartbeats 1000000

namespace Ortc

/-- Bytes on the wire are modelled as natural numbers (values below 256). -/
abbrev Byte := Nat

/-! ## Record layer: fragmentation (`dtls/src/conn/mod.rs`) -/

/-- DTLS handshake header (12 bytes on the wire): type, 24-bit total
length, 16-bit message sequence, 24-bit fragment offset, 24-bit fragment
length. -/
structure HandshakeHeader where
  handshake_type : Nat
  length : Nat
  message_sequence : Nat
  fragment_offset : Nat
  fragment_length : Nat
deriving Repr, DecidableEq

/-- `split_bytes` from `dtls/src/conn/mod.rs`: the source iterates the
indices `0, split_len, 2*split_len, ...` and pushes `bytes[i..j]` with
`j = min (i + split_len) num_bytes`; this recursion produces exactly those
chunks in order.  For `split_len = 0` (which `step_by` rejects at runtime
and no caller passes) the result is the empty list. -/
def split_bytes (bytes : List Byte) (split_len : Nat) : List (List Byte) :=
  if split_len = 0 ∨ bytes = [] then []
  else bytes.take split_len :: split_bytes (bytes.drop split_len) split_len
termination_by bytes.length
decreasing_by
  rename_i h
  push_neg at h
  obtain ⟨h0, hne⟩ := h
  have hpos : 0 < bytes.length := List.length_pos.mpr hne
  simp only [List.length_drop]
  omega

/-- One outbound handshake message: its header together with the
marshalled body bytes (the output of `handshake_message.marshal`). -/
structure HandshakeMsg where
  handshake_header : HandshakeHeader
  body : List Byte
deriving Repr, DecidableEq

/-- A single fragment produced by `fragment_handshake`: the fragment
header (sharing the original type, length and message sequence) and the
chunk of the body it carries. -/
structure HandshakeFragment where
  header : HandshakeHeader
  data : List Byte
deriving Repr, DecidableEq

/-- The fragment-stamping loop of `fragment_handshake`: walks the body
chunks accumulating `offset`, and builds each fragment header with the
original type, length and message sequence but the running
`(fragment_offset, fragment_length)`.  The source stores both fields
through an `as u32` cast, modelled by `% 2^32`. -/
def fragment_stamp (h : HandshakeHeader) (offset : Nat) :
    List (List Byte) → List HandshakeFragment
  | [] => []
  | c :: cs =>
      { header := { handshake_type := h.handshake_type
                    length := h.length
                    message_sequence := h.message_sequence
                    fragment_offset := offset % 2 ^ 32
                    fragment_length := c.length % 2 ^ 32 }
        data := c } :: fragment_stamp h (offset + c.length) cs

/-- `DTLSConn::fragment_handshake`: splits the marshalled body into
MTU-sized chunks (an empty body yields one empty chunk) and stamps each
chunk with a fragment header. -/
def fragment_handshake (maximum_transmission_unit : Nat) (h : HandshakeMsg) :
    List HandshakeFragment :=
  let content_fragments := split_bytes h.body maximum_transmission_unit
  let content_fragments := if content_fragments = [] then [[]] else content_fragments
  fragment_stamp h.handshake_header 0 content_fragments

/-! ## Record layer: sequence-number allocation (`dtls/src/conn/mod.rs`) -/

/-- The largest representable 48-bit record sequence number.
Modelled from the spec: the constant `MAX_SEQUENCE_NUMBER` is declared in
`dtls/src/record_layer/record_layer_header.rs`, which is not among the
examined sources; the spec fixes the bound as 2^48 - 1 ("within an epoch,
outbound sequence numbers ... never exceed 2^48 - 1"). -/
def MAX_SEQUENCE_NUMBER : Nat := 2 ^ 48 - 1

/-- The `while lsn.len() <= epoch { lsn.push(0) }` loop: extends the
per-epoch counter vector with zeroes until index `epoch` exists. -/
def extend_lsn (lsn : List Nat) (epoch : Nat) : List Nat :=
  lsn ++ List.replicate (epoch + 1 - lsn.length) 0

/-- The per-epoch allocation step shared by `process_packet` and
`process_handshake_packet`: `lsn[epoch] += 1; seq = lsn[epoch] - 1`.
Returns the updated counters and the allocated sequence number. -/
def allocate_sequence (lsn : List Nat) (epoch : Nat) : List Nat × Nat :=
  let lsn' := extend_lsn lsn epoch
  let seq := lsn'.getD epoch 0
  (lsn'.set epoch (seq + 1), seq)

/-- Big-endian byte strings of fixed width, used by the marshalled
headers.  Modelled from the spec: the marshal routines live in wire-format
modules not among the examined sources; the spec gives the field widths. -/
def be_bytes : Nat → Nat → List Byte
  | 0, _ => []
  | w + 1, n => be_bytes w (n / 256) ++ [n % 256]

/-- Marshal of the fixed 13-byte DTLS record header.
Modelled from the spec: `content_type (1) | version (2, major|minor) |
epoch (2) | sequence (6) | length (2)`, protocol version `{254, 253}`. -/
def marshal_record_header (content_type epoch seq len : Nat) : List Byte :=
  [content_type, 254, 253] ++ be_bytes 2 epoch ++ be_bytes 6 seq ++ be_bytes 2 len

/-- Marshal of the 12-byte handshake header.
Modelled from the spec: `type (1) | length (3) | msg_seq (2) |
frag_off (3) | frag_len (3)`. -/
def marshal_handshake_header (h : HandshakeHeader) : List Byte :=
  [h.handshake_type] ++ be_bytes 3 h.length ++ be_bytes 2 h.message_sequence ++
    be_bytes 3 h.fragment_offset ++ be_bytes 3 h.fragment_length

/-- Errors of the DTLS connection that the examined sources can return. -/
inductive DtlsError where
  | errSequenceNumberOverflow
  | errConnClosed
  | errHandshakeInProgress
  | errAlertFatalOrClose
  | errApplicationDataEpochZero
  | errUnhandledContextType
  | errInvalidFsmTransition
  | otherError (msg : String)
deriving Repr, DecidableEq

/-- Sequence-number discipline of `DTLSConn::process_packet`: allocate the
next sequence number under the per-epoch counter (even for records that
will not be encrypted), fail with `ErrSequenceNumberOverflow` when it
exceeds `MAX_SEQUENCE_NUMBER`, and otherwise marshal the record.  The
counter increment persists even on the failing call, as in the source
(the vector sits behind the connection-wide mutex). -/
def process_packet (lsn : List Nat) (epoch : Nat) (content_type : Nat)
    (payload : List Byte) : List Nat × Except DtlsError (List Byte) :=
  let (lsn', seq) := allocate_sequence lsn epoch
  if MAX_SEQUENCE_NUMBER < seq then
    (lsn', .error .errSequenceNumberOverflow)
  else
    (lsn', .ok (marshal_record_header content_type epoch seq payload.length ++ payload))

/-- The per-fragment loop of `DTLSConn::process_handshake_packet`: each
fragment is given its own freshly allocated sequence number and its own
record header; the loop aborts with `ErrSequenceNumberOverflow` as soon as
an allocation exceeds `MAX_SEQUENCE_NUMBER`. -/
def process_fragments (lsn : List Nat) (epoch : Nat) :
    List HandshakeFragment → List Nat × Except DtlsError (List (List Byte))
  | [] => (lsn, .ok [])
  | f :: fs =>
      let (lsn', seq) := allocate_sequence lsn epoch
      if MAX_SEQUENCE_NUMBER < seq then
        (lsn', .error .errSequenceNumberOverflow)
      else
        let fragment_bytes := marshal_handshake_header f.header ++ f.data
        let raw := marshal_record_header 22 epoch seq fragment_bytes.length ++ fragment_bytes
        match process_fragments lsn' epoch fs with
        | (lsn'', .ok rest) => (lsn'', .ok (raw :: rest))
        | (lsn'', .error e) => (lsn'', .error e)

/-- `DTLSConn::process_handshake_packet`: fragment the message under the
MTU and emit one record per fragment, each with its own sequence number. -/
def process_handshake_packet (lsn : List Nat) (epoch : Nat)
    (maximum_transmission_unit : Nat) (h : HandshakeMsg) :
    List Nat × Except DtlsError (List (List Byte)) :=
  process_fragments lsn epoch (fragment_handshake maximum_transmission_unit h)

/-! ## Record layer: inbound epoch validation (`dtls/src/conn/mod.rs`) -/

/-- The decoded 13-byte DTLS record header. -/
structure RecordLayerHeader where
  content_type : Nat
  version_major : Nat
  version_minor : Nat
  epoch : Nat
  sequence_number : Nat
  length : Nat
deriving Repr, DecidableEq

/-- Decode of the fixed 13-byte record header.
Modelled from the spec: `RecordLayerHeader::unmarshal` lives in
`dtls/src/record_layer/record_layer_header.rs`, which is not among the
examined sources; the spec gives the layout `content_type (1) |
version (2) | epoch (2) | sequence (6) | length (2)` and requires a
record whose header fails to decode (here: fewer than 13 bytes) to be
silently discarded. -/
def unmarshal_record_header (pkt : List Byte) : Option RecordLayerHeader :=
  match pkt with
  | b0 :: b1 :: b2 :: b3 :: b4 :: b5 :: b6 :: b7 :: b8 :: b9 :: b10 :: b11 :: b12 :: _ =>
      some { content_type := b0
             version_major := b1
             version_minor := b2
             epoch := b3 * 256 + b4
             sequence_number := ((((b5 * 256 + b6) * 256 + b7) * 256 + b8) * 256 + b9) * 256 + b10
             length := b11 * 256 + b12 }
  | _ => none

/-- Where the epoch-validation stage of `handle_incoming_packet` sends an
inbound record: silently dropped, queued on `incoming_encrypted_packets`,
or handed on to the rest of the body (anti-replay check, decryption and
content dispatch). -/
inductive IncomingDisposition where
  | discarded
  | queued
  | processed
deriving Repr, DecidableEq

/-- The header-decode and epoch-validation stage of
`DTLSConn::handle_incoming_packet` (the code up to and including the
`h.epoch > epoch` block).  Returns the record's disposition together with
the updated `incoming_encrypted_packets` queue: a record of a future
epoch beyond `remote_epoch + 1` is dropped, a record of exactly
`remote_epoch + 1` is queued when `enqueue` is set (and dropped
otherwise), and every record whose epoch is at most `remote_epoch` falls
through to the remainder of the body (`processed`). -/
def handle_incoming_packet_epoch (remote_epoch : Nat)
    (incoming_encrypted_packets : List (List Byte)) (pkt : List Byte)
    (enqueue : Bool) : IncomingDisposition × List (List Byte) :=
  match unmarshal_record_header pkt with
  | none => (.discarded, incoming_encrypted_packets)
  | some h =>
      if remote_epoch < h.epoch then
        if remote_epoch + 1 < h.epoch then
          (.discarded, incoming_encrypted_packets)
        else if enqueue then
          (.queued, incoming_encrypted_packets ++ [pkt])
        else
          (.discarded, incoming_encrypted_packets)
      else
        (.processed, incoming_encrypted_packets)

/-! ## DTLS connection and handshake engine
(`dtls/src/conn/mod.rs`, `dtls/src/handshaker.rs`) -/

/-- Alert severity. -/
inductive AlertLevel where
  | warning
  | fatal
deriving Repr, DecidableEq

/-- The alert descriptions the examined sources construct or inspect. -/
inductive AlertDescription where
  | closeNotify
  | unexpectedMessage
  | decodeError
  | otherDescription (code : Nat)
deriving Repr, DecidableEq

/-- A DTLS alert. -/
structure DtlsAlert where
  alert_level : AlertLevel
  alert_description : AlertDescription
deriving Repr, DecidableEq

/-- Record content, as carried by an outbound `Packet`. -/
inductive Content where
  | handshake (h : HandshakeMsg)
  | changeCipherSpec
  | alert (a : DtlsAlert)
  | applicationData (data : List Byte)
deriving Repr, DecidableEq

/-- An outbound packet queued by the connection: the record-layer epoch,
the content, and the flags the source keeps alongside. -/
structure Packet where
  epoch : Nat
  content : Content
  should_encrypt : Bool
  reset_local_sequence_number : Bool
deriving Repr, DecidableEq

/-- The handshake FSM states of `dtls/src/handshaker.rs`. -/
inductive HandshakeState where
  | errored
  | preparing
  | sending
  | waiting
  | finished
deriving Repr, DecidableEq

/-- The part of the cryptographic `State` the handshaker manipulates
directly. -/
structure DtlsState where
  is_client : Bool
  local_epoch : Nat
  remote_epoch : Nat
  handshake_send_sequence : Nat
deriving Repr, DecidableEq

/-- The flight interface consumed by the handshaker: the flight
implementations (`dtls/src/flight/*`) are not among the examined sources,
so a flight is an abstract value `Fl` equipped with the three queries and
the two operations the engine calls.  `generate` and `parse` may mutate
the cryptographic state, exactly as `&mut State` allows; the engine
compares flights by their display string, as `to_string()` does in
`wait`. -/
structure FlightIface (Fl : Type) where
  name : Fl → String
  has_retransmit : Fl → Bool
  is_last_send_flight : Fl → Bool
  is_last_recv_flight : Fl → Bool
  generate : Fl → DtlsState → DtlsState × Except (Option DtlsAlert × Option DtlsError) (List Packet)
  parse : Fl → DtlsState → DtlsState × Except (Option DtlsAlert × Option DtlsError) Fl

/-- The handshake configuration fields the examined code reads. -/
structure HandshakeCfg where
  initial_epoch : Nat
  retransmit_interval : Nat
  maximum_transmission_unit : Nat
deriving Repr, DecidableEq

/-- The `DTLSConn` fields the claims are about, parameterised by the
abstract flight type. -/
structure Conn (Fl : Type) where
  state : DtlsState
  handshake_completed : Bool
  closed : Bool
  current_handshake_state : HandshakeState
  current_retransmit_timer : Option Nat
  current_flight : Fl
  flights : Option (List Packet)
  retransmit : Bool
  handshake_rx : Option Unit
  outgoing_packets : List Packet

/-- `DTLSConn::notify`: queues an alert record at the current local epoch,
encrypted only once the handshake has completed. -/
def notify {Fl : Type} (c : Conn Fl) (level : AlertLevel) (desc : AlertDescription) :
    Conn Fl :=
  { c with outgoing_packets := c.outgoing_packets ++
      [{ epoch := c.state.local_epoch
         content := .alert { alert_level := level, alert_description := desc }
         should_encrypt := c.handshake_completed
         reset_local_sequence_number := false }] }

/-- The per-packet loop inside `prepare`: rebases each packet's epoch by
`initial_epoch` (a `u16` addition, modelled `% 2^16`), tracks the largest
resulting epoch, and stamps `message_sequence = handshake_send_sequence`
(an `as u16` cast, modelled `% 2^16`) on handshake records, incrementing
the counter.  Returns the rewritten packets, the resulting `next_epoch`
and the resulting send-sequence counter. -/
def prepare_packets (epoch : Nat) :
    List Packet → Nat → Nat → List Packet × Nat × Nat
  | [], next_epoch, hss => ([], next_epoch, hss)
  | p :: ps, next_epoch, hss =>
      let p_epoch := (p.epoch + epoch) % 2 ^ 16
      let next_epoch' := max next_epoch p_epoch
      let (content', hss') :=
        match p.content with
        | .handshake h =>
            (Content.handshake
              { h with handshake_header :=
                  { h.handshake_header with message_sequence := hss % 2 ^ 16 } },
             hss + 1)
        | other => (other, hss)
      let (ps', ne'', hss'') := prepare_packets epoch ps next_epoch' hss'
      ({ p with epoch := p_epoch, content := content' } :: ps', ne'', hss'')

/-- The tail of `prepare` after `generate` has been consulted: rebase and
stamp the stored flight packets, and bump `local_epoch` when the flight
raised the epoch (the first ChangeCipherSpec). -/
def prepare_finish {Fl : Type} (cfg : HandshakeCfg) (c : Conn Fl) :
    HandshakeState × Conn Fl :=
  let epoch := cfg.initial_epoch
  match c.flights with
  | none => (.sending, c)
  | some pkts =>
      let (pkts', next_epoch, hss') :=
        prepare_packets epoch pkts epoch c.state.handshake_send_sequence
      let c' := { c with
        flights := some pkts'
        state := { c.state with handshake_send_sequence := hss' } }
      if epoch ≠ next_epoch then
        (.sending, { c' with state := { c'.state with local_epoch := next_epoch } })
      else
        (.sending, c')

/-- `DTLSConn::prepare`: clear the stored flight, record whether the
current flight retransmits, run `generate`, emit any alert it returns and
surface its error, then rebase/stamp the generated packets.  On a
`generate` failure with no error the body falls through with `flights`
still `None`, exactly as the source does. -/
def prepare {Fl : Type} (I : FlightIface Fl) (cfg : HandshakeCfg) (c : Conn Fl) :
    Except DtlsError (HandshakeState × Conn Fl) :=
  let c1 := { c with flights := none, retransmit := I.has_retransmit c.current_flight }
  let (st, res) := I.generate c1.current_flight c1.state
  let c2 := { c1 with state := st }
  match res with
  | .error (a, err) =>
      let c3 :=
        match a with
        | some al => notify c2 al.alert_level al.alert_description
        | none => c2
      match err with
      | some e => .error e
      | none => .ok (prepare_finish cfg c3)
  | .ok pkts => .ok (prepare_finish cfg { c2 with flights := some pkts })

/-- `DTLSConn::send`: enqueue the stored flight packets unchanged on the
outbound queue; finish if this was the last send flight, otherwise arm
the retransmit timer and wait. -/
def send {Fl : Type} (I : FlightIface Fl) (cfg : HandshakeCfg) (now : Nat)
    (c : Conn Fl) : Except DtlsError (HandshakeState × Conn Fl) :=
  let c' :=
    match c.flights with
    | some pkts => { c with outgoing_packets := c.outgoing_packets ++ pkts }
    | none => c
  if I.is_last_send_flight c'.current_flight then
    .ok (.finished, c')
  else
    .ok (.waiting, { c' with current_retransmit_timer := some (now + cfg.retransmit_interval) })

/-- `DTLSConn::wait`: with pending inbound input, take it and run
`parse`; otherwise stay in `Waiting`. -/
def wait {Fl : Type} (I : FlightIface Fl) (c : Conn Fl) :
    Except DtlsError (HandshakeState × Conn Fl) :=
  match c.handshake_rx with
  | some _ =>
      let c1 := { c with handshake_rx := none }
      let (st, res) := I.parse c1.current_flight c1.state
      let c2 := { c1 with state := st }
      match res with
      | .error (a, err) =>
          let c3 :=
            match a with
            | some al => notify c2 al.alert_level al.alert_description
            | none => c2
          match err with
          | some e => .error e
          | none => .ok (.waiting, c3)
      | .ok next_flight =>
          if I.is_last_recv_flight next_flight &&
              (I.name c2.current_flight == I.name next_flight) then
            .ok (.finished, c2)
          else
            .ok (.preparing, { c2 with current_flight := next_flight })
  | none => .ok (.waiting, c)

/-- `DTLSConn::finish`: idempotent re-parse of the peer's retransmitted
last flight when input is pending; stays in `Finished`. -/
def finish {Fl : Type} (I : FlightIface Fl) (c : Conn Fl) :
    Except DtlsError (HandshakeState × Conn Fl) :=
  match c.handshake_rx with
  | some _ =>
      let c1 := { c with handshake_rx := none }
      let (st, res) := I.parse c1.current_flight c1.state
      let c2 := { c1 with state := st }
      match res with
      | .error (a, err) =>
          let c3 :=
            match a with
            | some al => notify c2 al.alert_level al.alert_description
            | none => c2
          match err with
          | some e => .error e
          | none => .ok (.finished, c3)
      | .ok _ => .ok (.finished, c2)
  | none => .ok (.finished, c)

/-- One iteration of the `loop` body of `DTLSConn::handshake`: dispatch on
the current FSM state.  `Errored` hits the wildcard arm and surfaces
`ErrInvalidFsmTransition`. -/
def handshake_step {Fl : Type} (I : FlightIface Fl) (cfg : HandshakeCfg) (now : Nat)
    (c : Conn Fl) : Except DtlsError (HandshakeState × Conn Fl) :=
  match c.current_handshake_state with
  | .preparing => prepare I cfg c
  | .sending => send I cfg now c
  | .waiting => wait I c
  | .finished => finish I c
  | .errored => .error .errInvalidFsmTransition

/-- `DTLSConn::handshake`, with an explicit fuel bound on the number of
loop iterations: `none` means the loop was still running when the fuel
ran out (so `handshake` performs at least `fuel` iterations on this
connection without returning).  Each iteration first applies the
`Finished ∧ ¬completed` early return, then runs one FSM step and stores
the returned state, exactly as the source loop does. -/
def handshake_fuel {Fl : Type} (I : FlightIface Fl) (cfg : HandshakeCfg) (now : Nat) :
    Nat → Conn Fl → Option (Except DtlsError (Conn Fl))
  | 0, _ => none
  | fuel + 1, c =>
      if c.current_handshake_state = .finished ∧ c.handshake_completed = false then
        some (.ok { c with handshake_completed := true })
      else
        match handshake_step I cfg now c with
        | .error e => some (.error e)
        | .ok (st, c') =>
            handshake_fuel I cfg now fuel { c' with current_handshake_state := st }

/-- `DTLSConn::handshake_timeout`: on a fired retransmit timer, move
`Waiting` to `Sending` when the flight retransmits (else rearm and stay),
move `Finished` to `Sending`, and re-enter the handshake loop; the
re-entered loop gets the given fuel. -/
def handshake_timeout {Fl : Type} (I : FlightIface Fl) (cfg : HandshakeCfg)
    (now fuel : Nat) (c : Conn Fl) : Option (Except DtlsError (Conn Fl)) :=
  if c.current_handshake_state = .waiting then
    if c.retransmit then
      handshake_fuel I cfg now fuel { c with current_handshake_state := .sending }
    else
      some (.ok { c with current_retransmit_timer := some (now + cfg.retransmit_interval) })
  else if c.current_handshake_state = .finished then
    handshake_fuel I cfg now fuel { c with current_handshake_state := .sending }
  else
    some (.ok c)

/-- `DTLSConn::write`: refuse when the connection is closed, refuse while
the handshake is still in progress, and otherwise queue exactly one
encrypted ApplicationData record at the current local epoch, returning
the payload length. -/
def write {Fl : Type} (c : Conn Fl) (p : List Byte) :
    Except DtlsError (Nat × Conn Fl) :=
  if c.closed then
    .error .errConnClosed
  else if ¬c.handshake_completed then
    .error .errHandshakeInProgress
  else
    .ok (p.length,
      { c with outgoing_packets := c.outgoing_packets ++
          [{ epoch := c.state.local_epoch
             content := .applicationData p
             should_encrypt := true
             reset_local_sequence_number := false }] })

/-! ## ICE agent core (`rtc-ice/src/agent/mod.rs`) -/

/-- STUN method and class codes (RFC 5389 values, as in the `stun`
crate). -/
def METHOD_BINDING : Nat := 0x001

/-- STUN class code for a request. -/
def CLASS_REQUEST : Nat := 0x00

/-- STUN class code for an indication. -/
def CLASS_INDICATION : Nat := 0x01

/-- STUN class code for a success response. -/
def CLASS_SUCCESS_RESPONSE : Nat := 0x02

/-- STUN attribute type codes the agent inspects or emits. -/
def ATTR_USERNAME : Nat := 0x0006

/-- MESSAGE-INTEGRITY attribute code. -/
def ATTR_MESSAGE_INTEGRITY : Nat := 0x0008

/-- XOR-MAPPED-ADDRESS attribute code. -/
def ATTR_XORMAPPED_ADDRESS : Nat := 0x0020

/-- USE-CANDIDATE attribute code. -/
def ATTR_USE_CANDIDATE : Nat := 0x0025

/-- FINGERPRINT attribute code. -/
def ATTR_FINGERPRINT : Nat := 0x8028

/-- ICE-CONTROLLED attribute code. -/
def ATTR_ICE_CONTROLLED : Nat := 0x8029

/-- ICE-CONTROLLING attribute code. -/
def ATTR_ICE_CONTROLLING : Nat := 0x802A

/-- Pending binding requests older than this many milliseconds are purged.
Modelled from the spec: the constant lives in the agent configuration
module, which is not among the examined sources; the spec fixes 500 ms. -/
def MAX_BINDING_REQUEST_TIMEOUT : Nat := 500

/-- Default bound on connectivity checks per pair when the configuration
leaves it unset.  Modelled from the spec's configuration section; the
concrete value is irrelevant to every claim below, which are stated
relative to the agent's stored `max_binding_requests`. -/
def DEFAULT_MAX_BINDING_REQUESTS : Nat := 7

/-- ICE candidate types. -/
inductive CandidateType where
  | host
  | serverReflexive
  | peerReflexive
  | relay
deriving Repr, DecidableEq

/-- A transport address. -/
structure SockAddr where
  ip : String
  port : Nat
deriving Repr, DecidableEq

/-- An ICE candidate, reduced to the fields the examined agent code
reads: its type, its transport address, and the liveness timestamps
updated by `seen`. -/
structure Candidate where
  candidate_type : CandidateType
  address : String
  port : Nat
  last_sent : Nat
  last_received : Nat
deriving Repr, DecidableEq

/-- Candidate identity as used for de-duplication and pair lookup.
Modelled from the spec: the `Candidate::equal` trait implementation is
not among the examined sources; per the data model it compares the
candidate's identifying fields (type and transport address), not its
liveness timestamps. -/
def Candidate.equal (a b : Candidate) : Bool :=
  a.candidate_type == b.candidate_type && a.address == b.address && a.port == b.port

/-- `str::ends_with`, computed over the string's character list (the
`String.endsWith` of the standard library does not reduce well inside the
kernel; suffix-of on the character list is the same predicate). -/
def ends_with (s suffix : String) : Bool :=
  suffix.data.isSuffixOf s.data

/-- `Candidate::addr`. -/
def Candidate.addr (c : Candidate) : SockAddr :=
  { ip := c.address, port := c.port }

/-- `seen(false)`: records inbound traffic on the candidate. -/
def Candidate.seen_inbound (c : Candidate) (now : Nat) : Candidate :=
  { c with last_received := now }

/-- Candidate-pair states. -/
inductive CandidatePairState where
  | frozen
  | waiting
  | inProgress
  | succeeded
  | failed
deriving Repr, DecidableEq

/-- A candidate pair on the checklist. -/
structure CandidatePair where
  local_c : Candidate
  remote : Candidate
  is_controlling : Bool
  state : CandidatePairState
  nominated : Bool
  binding_request_count : Nat
deriving Repr, DecidableEq

/-- Fresh pair construction.  Modelled from the spec:
`CandidatePair::new` lives in the candidate module, which is not among
the examined sources; per the data model a pair is created in `Waiting`
state, not nominated, with zero binding requests sent. -/
def CandidatePair.new (l r : Candidate) (controlling : Bool) : CandidatePair :=
  { local_c := l
    remote := r
    is_controlling := controlling
    state := .waiting
    nominated := false
    binding_request_count := 0 }

/-- Same endpoints, compared with candidate identity (`find_pair`). -/
def CandidatePair.same_endpoints (p : CandidatePair) (l r : Candidate) : Bool :=
  p.local_c.equal l && p.remote.equal r

/-- ICE agent connection states. -/
inductive IceConnectionState where
  | new
  | checking
  | connected
  | disconnected
  | failed
  | closed
deriving Repr, DecidableEq

/-- One entry of the pending outbound binding-request LRU. -/
structure BindingRequestEntry where
  timestamp : Nat
  transaction_id : Nat
  destination : SockAddr
  is_use_candidate : Bool
deriving Repr, DecidableEq

/-- An inbound or outbound STUN message, reduced to what the agent
inspects: method, class, the set of attribute codes present, the
transaction id, the USERNAME value, and the set of short-term keys whose
MESSAGE-INTEGRITY check passes on it (abstracting the HMAC). -/
structure StunMessage where
  method : Nat
  msg_class : Nat
  attrs : List Nat
  transaction_id : Nat
  username : String
  valid_integrity_keys : List String
deriving Repr, DecidableEq

/-- `Message::contains`. -/
def StunMessage.contains (m : StunMessage) (attr : Nat) : Bool :=
  m.attrs.contains attr

/-- `assert_inbound_username`: the USERNAME attribute must be present and
equal the expected `local_ufrag:remote_ufrag` value. -/
def assert_inbound_username (m : StunMessage) (expected : String) : Bool :=
  m.contains ATTR_USERNAME && m.username == expected

/-- `assert_inbound_message_integrity`: the short-term MESSAGE-INTEGRITY
check with the given key, abstracted by key membership. -/
def assert_inbound_message_integrity (m : StunMessage) (key : String) : Bool :=
  m.valid_integrity_keys.contains key

/-- A datagram handed to the wire by `send_stun`: the message plus the
(local, remote) candidates it travels between. -/
structure Transmit where
  msg : StunMessage
  local_c : Candidate
  remote : Candidate
deriving Repr, DecidableEq

/-- ICE errors the examined sources return. -/
inductive IceError where
  | errMulticastDnsNotSupported
  | errLiteSupportOnly
  | errLiteUsingNonHostCandidates
  | errUselessUrlsProvided
  | errLocalUfragInsufficientBits
  | errLocalPwdInsufficientBits
  | errRemoteUfragEmpty
  | errRemotePwdEmpty
deriving Repr, DecidableEq

/-- The agent configuration fields `Agent::new` reads.  URLs are opaque
identifiers here (only emptiness of the list matters). -/
structure AgentConfig where
  urls : List Nat
  lite : Bool
  is_controlling : Bool
  candidate_types : List CandidateType
  max_binding_requests : Option Nat
  local_ufrag : String
  local_pwd : String
deriving Repr, DecidableEq

/-- The ICE agent, reduced to the fields the examined operations touch. -/
structure Agent where
  is_controlling : Bool
  lite : Bool
  connection_state : IceConnectionState
  local_ufrag : String
  local_pwd : String
  remote_ufrag : String
  remote_pwd : String
  local_candidates : List Candidate
  remote_candidates : List Candidate
  pending_binding_requests : List BindingRequestEntry
  checklist : List CandidatePair
  selected_pair : Option CandidatePair
  max_binding_requests : Nat
  candidate_types : List CandidateType
  next_transaction_id : Nat
deriving Repr, DecidableEq

/-- `Agent::update_connection_state`: a transition to `Failed` flushes
all candidates. -/
def Agent.update_connection_state (a : Agent) (new_state : IceConnectionState) : Agent :=
  if a.connection_state = new_state then a
  else
    let a' :=
      if new_state = .failed then
        { a with local_candidates := [], remote_candidates := [] }
      else a
    { a' with connection_state := new_state }

/-- `Agent::set_selected_pair` with `Some p`: nominate `p` (a store
through the shared `Rc`, so the checklist copy is nominated too), install
it as the selected pair and move to `Connected`. -/
def Agent.select_pair (a : Agent) (p : CandidatePair) : Agent :=
  let p' := { p with nominated := true }
  let a' := { a with
    selected_pair := some p'
    checklist := a.checklist.map (fun (q : CandidatePair) =>
      if q.same_endpoints p.local_c p.remote then { q with nominated := true } else q) }
  a'.update_connection_state .connected

/-- `Agent::add_pair`: append a fresh pair to the checklist. -/
def Agent.add_pair (a : Agent) (l r : Candidate) : Agent :=
  { a with checklist := a.checklist ++ [CandidatePair.new l r a.is_controlling] }

/-- `Agent::add_local_candidate`: drop a duplicate, otherwise store the
candidate and pair it with every known remote candidate. -/
def Agent.add_local_candidate (a : Agent) (c : Candidate) : Agent :=
  if a.local_candidates.any (fun cand => cand.equal c) then a
  else
    let a' := { a with local_candidates := a.local_candidates ++ [c] }
    a'.remote_candidates.foldl (fun acc r => acc.add_pair c r) a'

/-- `Agent::add_remote_candidate`: reject an unresolvable mDNS host
candidate, drop a duplicate, otherwise store the candidate and pair it
with every known local candidate. -/
def Agent.add_remote_candidate (a : Agent) (c : Candidate) : Except IceError Agent :=
  if c.candidate_type == CandidateType.host && ends_with c.address ".local" then
    .error .errMulticastDnsNotSupported
  else if a.remote_candidates.any (fun cand => cand.equal c) then
    .ok a
  else
    let a' := { a with remote_candidates := a.remote_candidates ++ [c] }
    .ok (a'.local_candidates.foldl (fun acc l => acc.add_pair l c) a')

/-- `Agent::invalidate_pending_binding_requests`: keep an entry iff its
age at `filter_time` is below `MAX_BINDING_REQUEST_TIMEOUT` (entries
stamped in the future are kept, as `checked_duration_since` yields
`None`; with truncated subtraction their age is 0). -/
def Agent.invalidate_pending_binding_requests (a : Agent) (filter_time : Nat) : Agent :=
  { a with pending_binding_requests :=
      a.pending_binding_requests.filter (fun br =>
        filter_time - br.timestamp < MAX_BINDING_REQUEST_TIMEOUT) }

/-- `Agent::send_stun`: hand the message to the wire. -/
def Agent.send_stun (m : StunMessage) (l r : Candidate) : List Transmit :=
  [{ msg := m, local_c := l, remote := r }]

/-- `Agent::send_binding_request`: purge stale pending entries, remember
the transaction, and send. -/
def Agent.send_binding_request (a : Agent) (now : Nat) (m : StunMessage)
    (l r : Candidate) : Agent × List Transmit :=
  let a1 := a.invalidate_pending_binding_requests now
  let a2 := { a1 with pending_binding_requests := a1.pending_binding_requests ++
      [{ timestamp := now
         transaction_id := m.transaction_id
         destination := r.addr
         is_use_candidate := m.contains ATTR_USE_CANDIDATE }] }
  (a2, Agent.send_stun m l r)

/-- `Agent::send_binding_success`: build the success response (same
transaction id, XOR-MAPPED-ADDRESS of the sender, MESSAGE-INTEGRITY with
the local password, FINGERPRINT) and send it.  No agent state changes. -/
def Agent.send_binding_success (a : Agent) (m : StunMessage) (l r : Candidate) :
    List Transmit :=
  Agent.send_stun
    { method := METHOD_BINDING
      msg_class := CLASS_SUCCESS_RESPONSE
      attrs := [ATTR_XORMAPPED_ADDRESS, ATTR_MESSAGE_INTEGRITY, ATTR_FINGERPRINT]
      transaction_id := m.transaction_id
      username := ""
      valid_integrity_keys := [a.local_pwd] } l r

/-- `Agent::ping_candidate`.  Modelled from the spec: the request builder
lives in the selector module, which is not among the examined sources;
per the spec it assembles a binding request (USERNAME
`remote_ufrag:local_ufrag`, integrity with the remote password, a fresh
transaction id) and hands it to `send_binding_request`.  It does not
touch the checklist. -/
def Agent.ping_candidate (a : Agent) (now : Nat) (l r : Candidate) :
    Agent × List Transmit :=
  let m : StunMessage :=
    { method := METHOD_BINDING
      msg_class := CLASS_REQUEST
      attrs := [ATTR_USERNAME, ATTR_MESSAGE_INTEGRITY, ATTR_FINGERPRINT]
      transaction_id := a.next_transaction_id
      username := a.remote_ufrag ++ ":" ++ a.local_ufrag
      valid_integrity_keys := [a.remote_pwd] }
  let a1 := { a with next_transaction_id := a.next_transaction_id + 1 }
  a1.send_binding_request now m l r

/-- The per-pair step of `Agent::ping_all_candidates`: promote `Waiting`
to `InProgress`, skip any other non-`InProgress` pair, mark a pair
`Failed` once its count exceeds `max_binding_requests`, and otherwise
increment the count and schedule a ping. -/
def ping_pair (max_binding_requests : Nat) (p : CandidatePair) :
    CandidatePair × Option (Candidate × Candidate) :=
  let step :=
    if p.state = .waiting then some { p with state := .inProgress }
    else if p.state = .inProgress then some p
    else none
  match step with
  | none => (p, none)
  | some p' =>
      if max_binding_requests < p'.binding_request_count then
        ({ p' with state := .failed }, none)
      else
        ({ p' with binding_request_count := p'.binding_request_count + 1 },
         some (p'.local_c, p'.remote))

/-- `Agent::ping_all_candidates`: walk the checklist with `ping_pair`,
then ping each scheduled pair. -/
def Agent.ping_all_candidates (a : Agent) (now : Nat) : Agent × List Transmit :=
  let stepped := a.checklist.map (ping_pair a.max_binding_requests)
  let a1 := { a with checklist := stepped.map Prod.fst }
  (stepped.filterMap Prod.snd).foldl
    (fun (acc : Agent × List Transmit) lr =>
      let (a2, out) := acc.1.ping_candidate now lr.1 lr.2
      (a2, acc.2 ++ out))
    (a1, [])

/-- `Agent::find_remote_candidate`: match on the textual address and
port. -/
def Agent.find_remote_candidate (a : Agent) (remote : SockAddr) : Option Candidate :=
  a.remote_candidates.find? (fun c => c.address == remote.ip && c.port == remote.port)

/-- `Agent::handle_inbound_binding_success`: purge stale entries, then
remove and return the pending entry with the given transaction id. -/
def Agent.take_pending_binding_request (a : Agent) (id : Nat) (now : Nat) :
    Agent × Option BindingRequestEntry :=
  let a1 := a.invalidate_pending_binding_requests now
  match a1.pending_binding_requests.find? (fun br => br.transaction_id == id) with
  | some br =>
      ({ a1 with pending_binding_requests :=
          a1.pending_binding_requests.eraseP (fun br' => br'.transaction_id == id) },
       some br)
  | none => (a1, none)

/-- The `Rc`-shared `rc.seen(false)` at the end of `handle_inbound`:
stamp `last_received` on the matched remote candidate; the checklist and
selected-pair copies share the allocation, so they are stamped too. -/
def Agent.touch_remote (a : Agent) (rc : Candidate) (now : Nat) : Agent :=
  { a with
    remote_candidates := a.remote_candidates.map (fun c =>
      if c.equal rc then c.seen_inbound now else c)
    checklist := a.checklist.map (fun p =>
      if p.remote.equal rc then { p with remote := p.remote.seen_inbound now } else p)
    selected_pair := a.selected_pair.map (fun p =>
      if p.remote.equal rc then { p with remote := p.remote.seen_inbound now } else p) }

/-- Success-response handling.  Modelled from the spec: the selector
module is not among the examined sources; per the spec the agent looks
the transaction id up in the pending LRU (discarding when missing or
expired), marks the pair `Succeeded`, nominates it when the original
request carried USE-CANDIDATE, and installs a succeeded nominated pair as
selected. -/
def Agent.handle_success_response (a : Agent) (m : StunMessage)
    (l rc : Candidate) (now : Nat) : Agent :=
  match a.take_pending_binding_request m.transaction_id now with
  | (a1, none) => a1
  | (a1, some br) =>
      let a2 := { a1 with checklist := a1.checklist.map (fun (p : CandidatePair) =>
          if p.same_endpoints l rc then
            { p with state := .succeeded, nominated := p.nominated || br.is_use_candidate }
          else p) }
      match a2.checklist.find? (fun (p : CandidatePair) => p.same_endpoints l rc) with
      | some p => if p.nominated then a2.select_pair p else a2
      | none => a2

/-- Binding-request handling.  Modelled from the spec: the selector
module is not among the examined sources; per the spec a request carrying
USE-CANDIDATE received while controlled nominates the matching pair
(selecting it once succeeded), and in every case a
`BindingSuccessResponse` is produced. -/
def Agent.handle_binding_request (a : Agent) (m : StunMessage)
    (l rc : Candidate) : Agent × List Transmit :=
  let a1 :=
    if m.contains ATTR_USE_CANDIDATE && !a.is_controlling then
      let marked := { a with checklist := a.checklist.map (fun (p : CandidatePair) =>
          if p.same_endpoints l rc then { p with nominated := true } else p) }
      match marked.checklist.find? (fun (p : CandidatePair) => p.same_endpoints l rc) with
      | some p => if p.state = .succeeded then marked.select_pair p else marked
      | none => marked
    else a
  (a1, a1.send_binding_success m l rc)

/-- `Agent::handle_inbound`: the classification and role-conflict guards
are translated from the source; the deeper success/request handling
delegates to the spec-modelled helpers above.  Returns the updated agent
and everything sent. -/
def Agent.handle_inbound (a : Agent) (m : StunMessage) (l : Candidate)
    (remote : SockAddr) (now : Nat) : Agent × List Transmit :=
  if ¬(m.method = METHOD_BINDING ∧
      (m.msg_class = CLASS_SUCCESS_RESPONSE ∨ m.msg_class = CLASS_REQUEST ∨
        m.msg_class = CLASS_INDICATION)) then
    (a, [])
  else if a.is_controlling ∧ m.contains ATTR_ICE_CONTROLLING then
    (a, [])
  else if a.is_controlling ∧ m.contains ATTR_USE_CANDIDATE then
    (a, [])
  else if ¬a.is_controlling ∧ m.contains ATTR_ICE_CONTROLLED then
    (a, [])
  else
    let rcOpt := a.find_remote_candidate remote
    if m.msg_class = CLASS_SUCCESS_RESPONSE then
      if ¬assert_inbound_message_integrity m a.remote_pwd then (a, [])
      else
        match rcOpt with
        | some rc => ((a.handle_success_response m l rc now).touch_remote rc now, [])
        | none => (a, [])
    else if m.msg_class = CLASS_REQUEST then
      if ¬assert_inbound_username m (a.local_ufrag ++ ":" ++ a.remote_ufrag) then (a, [])
      else if ¬assert_inbound_message_integrity m a.local_pwd then (a, [])
      else
        match rcOpt with
        | some rc =>
            let (a1, out) := a.handle_binding_request m l rc
            (a1.touch_remote rc now, out)
        | none => (a, [])
    else
      match rcOpt with
      | some rc => (a.touch_remote rc now, [])
      | none => (a, [])

/-- Generated local ufrag for an empty configuration value.  Modelled
from the spec: `generate_ufrag` lives in the agent's rand module, not
among the examined sources; it yields a random 16-character credential. -/
def generate_ufrag : String := "ufrag0123456789a"

/-- Generated local password for an empty configuration value.  Modelled
from the spec: `generate_pwd` yields a random 32-character credential. -/
def generate_pwd : String := "pwd0123456789abcdef0123456789abc"

/-- `Agent::restart`: generate missing credentials, validate their bit
lengths, and reset credentials, pending requests, checklist, selected
pair and candidate sets; an agent past `New` moves back to `Checking`. -/
def Agent.restart (a : Agent) (ufrag pwd : String) : Except IceError Agent :=
  let ufrag' := if ufrag.isEmpty then generate_ufrag else ufrag
  let pwd' := if pwd.isEmpty then generate_pwd else pwd
  if ufrag'.length * 8 < 24 then .error .errLocalUfragInsufficientBits
  else if pwd'.length * 8 < 128 then .error .errLocalPwdInsufficientBits
  else
    let a1 := { a with
      local_ufrag := ufrag'
      local_pwd := pwd'
      remote_ufrag := ""
      remote_pwd := ""
      pending_binding_requests := []
      checklist := []
      selected_pair := none
      local_candidates := []
      remote_candidates := [] }
    if a1.connection_state ≠ .new then
      .ok (a1.update_connection_state .checking)
    else
      .ok a1

/-- `contains_candidate_type`. -/
def contains_candidate_type (t : CandidateType) (ts : List CandidateType) : Bool :=
  ts.contains t

/-- `Agent::new`.  The `default_candidate_types()` fallback lives in the
candidate module, which is not among the examined sources, so it is
passed in as `defaults`; every theorem below holds for an arbitrary
fallback.  The guard order follows the source: the lite/non-host check
first, then the lite-only check, then the useless-URLs check; finally the
fresh agent is initialised through `restart`. -/
def Agent.new (defaults : List CandidateType) (config : AgentConfig) :
    Except IceError Agent :=
  let candidate_types :=
    if config.candidate_types.isEmpty then defaults else config.candidate_types
  if config.lite ∧
      ¬(candidate_types.length = 1 ∧ candidate_types.head? = some .host) then
    .error .errLiteUsingNonHostCandidates
  else if ¬config.lite then
    .error .errLiteSupportOnly
  else if ¬config.urls.isEmpty ∧
      ¬contains_candidate_type .serverReflexive candidate_types ∧
      ¬contains_candidate_type .relay candidate_types then
    .error .errUselessUrlsProvided
  else
    let agent : Agent :=
      { is_controlling := config.is_controlling
        lite := config.lite
        connection_state := .new
        local_ufrag := ""
        local_pwd := ""
        remote_ufrag := ""
        remote_pwd := ""
        local_candidates := []
        remote_candidates := []
        pending_binding_requests := []
        checklist := []
        selected_pair := none
        max_binding_requests := config.max_binding_requests.getD DEFAULT_MAX_BINDING_REQUESTS
        candidate_types := candidate_types
        next_transaction_id := 1 }
    agent.restart config.local_ufrag config.local_pwd

/-- One public agent operation, for stating properties of arbitrary
operation sequences.  An operation that returns an error leaves the agent
as it was (the source returns before mutating). -/
inductive AgentOp where
  | addLocal (c : Candidate)
  | addRemote (c : Candidate)
  | pingAll (now : Nat)
  | inbound (m : StunMessage) (l : Candidate) (remote : SockAddr) (now : Nat)
  | restartOp (ufrag pwd : String)
deriving Repr, DecidableEq

/-- Apply one operation to the agent (discarding outputs and errors). -/
def Agent.apply_op (a : Agent) : AgentOp → Agent
  | .addLocal c => a.add_local_candidate c
  | .addRemote c =>
      match a.add_remote_candidate c with
      | .ok a' => a'
      | .error _ => a
  | .pingAll now => (a.ping_all_candidates now).1
  | .inbound m l remote now => (a.handle_inbound m l remote now).1
  | .restartOp ufrag pwd =>
      match a.restart ufrag pwd with
      | .ok a' => a'
      | .error _ => a

/-- Apply a sequence of operations. -/
def Agent.apply_ops (a : Agent) (ops : List AgentOp) : Agent :=
  ops.foldl Agent.apply_op a

/-! ## Derived notions used by the statements below -/

/-- The sequence numbers handed out by `k` successive allocations in one
epoch. -/
def allocate_sequence_trace (lsn : List Nat) (epoch : Nat) : Nat → List Nat
  | 0 => []
  | k + 1 =>
      let (lsn', seq) := allocate_sequence lsn epoch
      seq :: allocate_sequence_trace lsn' epoch k

/-- The current counter value of an epoch (the next sequence number it
will hand out). -/
def lsn_counter (lsn : List Nat) (epoch : Nat) : Nat :=
  (extend_lsn lsn epoch).getD epoch 0

/-- The message sequences of the handshake records in a packet list, in
order. -/
def handshake_seqs (pkts : List Packet) : List Nat :=
  pkts.filterMap (fun p =>
    match p.content with
    | .handshake h => some h.handshake_header.message_sequence
    | _ => none)

/-- The number of handshake records in a packet list. -/
def handshake_count (pkts : List Packet) : Nat :=
  (handshake_seqs pkts).length

/-- The flight implementations are outside the examined sources; all that
the send-sequence claims need of them is that `generate` and `parse` do
not themselves touch `handshake_send_sequence` (it is read and written
only by `prepare` in `dtls/src/handshaker.rs`). -/
def PreservesSendSequence {Fl : Type} (I : FlightIface Fl) : Prop :=
  ∀ fl s, ((I.generate fl s).1).handshake_send_sequence = s.handshake_send_sequence
    ∧ ((I.parse fl s).1).handshake_send_sequence = s.handshake_send_sequence

/-- The binding-request-count bound that actually holds on the code. -/
def checklist_counts_ok (a : Agent) : Prop :=
  ∀ p ∈ a.checklist, p.binding_request_count ≤ a.max_binding_requests + 1

/-- A placeholder fragment for positional lookups. -/
def default_fragment : HandshakeFragment :=
  { header := { handshake_type := 0, length := 0, message_sequence := 0
                fragment_offset := 0, fragment_length := 0 }
    data := [] }

/-! ## Concrete instances used by the witnesses -/

/-- A trivial flight over `Unit`, for exercising the handshake FSM. -/
def triv_flight_iface : FlightIface Unit :=
  { name := fun _ => "flight"
    has_retransmit := fun _ => true
    is_last_send_flight := fun _ => false
    is_last_recv_flight := fun _ => false
    generate := fun _ s => (s, .ok [])
    parse := fun _ s => (s, .ok ()) }

/-- A flight over `Unit` whose `generate` emits one handshake record and
one ChangeCipherSpec record, for exercising the stamping loop. -/
def stamping_flight_iface : FlightIface Unit :=
  { name := fun _ => "flight"
    has_retransmit := fun _ => true
    is_last_send_flight := fun _ => false
    is_last_recv_flight := fun _ => false
    generate := fun _ s =>
      (s, .ok
        [{ epoch := 0
           content := .handshake
             { handshake_header := { handshake_type := 1, length := 3, message_sequence := 0
                                     fragment_offset := 0, fragment_length := 3 }
               body := [1, 2, 3] }
           should_encrypt := false
           reset_local_sequence_number := false },
         { epoch := 1
           content := .changeCipherSpec
           should_encrypt := false
           reset_local_sequence_number := false }])
    parse := fun _ s => (s, .ok ()) }

/-- A default handshake configuration. -/
def test_handshake_cfg : HandshakeCfg :=
  { initial_epoch := 0, retransmit_interval := 100, maximum_transmission_unit := 1200 }

/-- A connection sitting in `Waiting` with no pending inbound input. -/
def waiting_conn : Conn Unit :=
  { state := { is_client := true, local_epoch := 0, remote_epoch := 0
               handshake_send_sequence := 0 }
    handshake_completed := false
    closed := false
    current_handshake_state := .waiting
    current_retransmit_timer := none
    current_flight := ()
    flights := none
    retransmit := true
    handshake_rx := none
    outgoing_packets := [] }

/-- A connection whose handshake has completed. -/
def open_conn : Conn Unit :=
  { state := { is_client := true, local_epoch := 1, remote_epoch := 1
               handshake_send_sequence := 5 }
    handshake_completed := true
    closed := false
    current_handshake_state := .finished
    current_retransmit_timer := none
    current_flight := ()
    flights := none
    retransmit := false
    handshake_rx := none
    outgoing_packets := [] }

/-- The connection of `waiting_conn`, about to prepare its flight. -/
def prep_conn : Conn Unit :=
  { waiting_conn with current_handshake_state := .preparing }

/-- What `prepare` makes of the `stamping_flight_iface` flight on
`prep_conn`: the handshake record stamped with send sequence 0, and the
ChangeCipherSpec record rebased to epoch 1. -/
def stamped_flight_packets : List Packet :=
  [{ epoch := 0
     content := .handshake
       { handshake_header := { handshake_type := 1, length := 3, message_sequence := 0
                               fragment_offset := 0, fragment_length := 3 }
         body := [1, 2, 3] }
     should_encrypt := false
     reset_local_sequence_number := false },
   { epoch := 1
     content := .changeCipherSpec
     should_encrypt := false
     reset_local_sequence_number := false }]

/-- A lite, controlled agent configuration with an explicit
`max_binding_requests` of zero. -/
def test_agent_config : AgentConfig :=
  { urls := []
    lite := true
    is_controlling := false
    candidate_types := [.host]
    max_binding_requests := some 0
    local_ufrag := "abcd"
    local_pwd := "0123456789abcdef" }

/-- The agent `Agent::new` constructs from `test_agent_config` (checked
by the theorems below). -/
def test_agent : Agent :=
  { is_controlling := false
    lite := true
    connection_state := .new
    local_ufrag := "abcd"
    local_pwd := "0123456789abcdef"
    remote_ufrag := ""
    remote_pwd := ""
    local_candidates := []
    remote_candidates := []
    pending_binding_requests := []
    checklist := []
    selected_pair := none
    max_binding_requests := 0
    candidate_types := [.host]
    next_transaction_id := 1 }

/-- A local host candidate. -/
def test_local_candidate : Candidate :=
  { candidate_type := .host, address := "127.0.0.1", port := 40000
    last_sent := 0, last_received := 0 }

/-- A remote host candidate. -/
def test_remote_candidate : Candidate :=
  { candidate_type := .host, address := "127.0.0.1", port := 40001
    last_sent := 0, last_received := 0 }

/-- A remote mDNS host candidate. -/
def test_mdns_candidate : Candidate :=
  { candidate_type := .host, address := "pc.local", port := 40002
    last_sent := 0, last_received := 0 }

/-- A binding request carrying ICE-CONTROLLING. -/
def test_controlling_message : StunMessage :=
  { method := METHOD_BINDING
    msg_class := CLASS_REQUEST
    attrs := [ATTR_USERNAME, ATTR_MESSAGE_INTEGRITY, ATTR_ICE_CONTROLLING]
    transaction_id := 42
    username := "abcd:efgh"
    valid_integrity_keys := ["0123456789abcdef"] }

/-- A controlling agent for the role-conflict witness. -/
def test_controlling_agent : Agent :=
  { is_controlling := true
    lite := true
    connection_state := .checking
    local_ufrag := "abcd"
    local_pwd := "0123456789abcdef"
    remote_ufrag := "efgh"
    remote_pwd := "fedcba9876543210"
    local_candidates := [test_local_candidate]
    remote_candidates := [test_remote_candidate]
    pending_binding_requests := []
    checklist := [CandidatePair.new test_local_candidate test_remote_candidate true]
    selected_pair := none
    max_binding_requests := 7
    candidate_types := [.host]
    next_transaction_id := 1 }

/-! ## Theorems -/

/-- A list has length one with head `x` exactly when it is `[x]`. -/
theorem length_one_head_iff {α : Type} (l : List α) (x : α) :
    (l.length = 1 ∧ l.head? = some x) ↔ l = [x] := by
  cases l with
  | nil => simp
  | cons a t => cases t <;> simp_all

/-- Claim C7: for every byte slice `p`, `DTLSConn::write(p)` returns
`ErrConnClosed` when the connection has been closed, returns
`ErrHandshakeInProgress` when the handshake is not yet completed, and
otherwise enqueues exactly one ApplicationData record marked for
encryption at the current local epoch and returns `p`'s length. -/
theorem C7_write_contract {Fl : Type} (c : Conn Fl) (p : List Byte) :
    (c.closed = true → write c p = .error .errConnClosed)
    ∧ (c.closed = false → c.handshake_completed = false →
        write c p = .error .errHandshakeInProgress)
    ∧ (c.closed = false → c.handshake_completed = true →
        write c p = .ok (p.length,
          { c with outgoing_packets := c.outgoing_packets ++
              [{ epoch := c.state.local_epoch
                 content := .applicationData p
                 should_encrypt := true
                 reset_local_sequence_number := false }] })) :=
  ⟨fun h1 => by simp [write, h1],
   fun h1 h2 => by simp [write, h1, h2],
   fun h1 h2 => by simp [write, h1, h2]⟩

/-- Witness for C7: writing two application bytes on an open connection. -/
theorem C7_write_contract_witness :
    write open_conn [1, 2] = .ok (2,
      { open_conn with outgoing_packets :=
          [{ epoch := 1
             content := .applicationData [1, 2]
             should_encrypt := true
             reset_local_sequence_number := false }] }) :=
  (C7_write_contract open_conn [1, 2]).2.2 rfl rfl

/-- Claim C3 exhibit: whenever the handshake FSM sits in `Waiting` with no
pending inbound handshake input (`handshake_rx` empty), the
`DTLSConn::handshake` loop never returns: for every fuel bound the loop is
still iterating, because the `wait` arm yields `Waiting` again and the
loop body has no exit for that state.  This contradicts the documented
behaviour (return and let the timer or the next datagram re-enter the
FSM), on which the single-threaded callers in
`dtls_handlers/dtls_connection_handler.rs` rely. -/
theorem C3_handshake_waiting_divergence {Fl : Type} (I : FlightIface Fl)
    (cfg : HandshakeCfg) (now : Nat) (fuel : Nat) (c : Conn Fl)
    (hw : c.current_handshake_state = .waiting)
    (hrx : c.handshake_rx = none) :
    handshake_fuel I cfg now fuel c = none := by
  induction fuel generalizing c with
  | zero => rfl
  | succ n ih =>
      have hstep : handshake_step I cfg now c = .ok (.waiting, c) := by
        simp [handshake_step, hw, wait, hrx]
      have hid : ({ c with current_handshake_state := HandshakeState.waiting } : Conn Fl) = c := by
        rw [← hw]
      simp only [handshake_fuel, hw, hstep, hid]
      rw [if_neg (by simp)]
      exact ih c hw hrx

/-- Witness for C3: a concrete waiting connection makes no progress in a
thousand loop iterations. -/
theorem C3_handshake_waiting_divergence_witness :
    handshake_fuel triv_flight_iface test_handshake_cfg 0 1000 waiting_conn = none :=
  C3_handshake_waiting_divergence triv_flight_iface test_handshake_cfg 0 1000
    waiting_conn rfl rfl

/-- Claim C1 (counterexample): with `remote_epoch = 1`, an inbound record
whose decoded epoch is 0 — strictly below `remote_epoch` — is not
silently discarded: the epoch-validation stage of
`handle_incoming_packet` passes it on to the replay check, decryption and
content dispatch, because the source only branches on
`h.epoch > remote_epoch`. -/
theorem C1_low_epoch_not_discarded :
    (handle_incoming_packet_epoch 1 []
        [23, 254, 253, 0, 0, 0, 0, 0, 0, 0, 0, 0, 0] true).1 = .processed
    ∧ IncomingDisposition.processed ≠ .discarded
    ∧ IncomingDisposition.processed ≠ .queued := by
  exact ⟨rfl, by decide, by decide⟩

/-- Claim C1 (amended): for every inbound record whose 13-byte header
decodes, the epoch classification has these outcomes: epoch equal to
`remote_epoch` is processed further; epoch equal to `remote_epoch + 1` is
queued into `incoming_encrypted_packets` when enqueueing is enabled and
silently dropped otherwise; epoch greater than `remote_epoch + 1` is
silently discarded; and epoch strictly *less* than `remote_epoch` is
processed further exactly like an equal epoch (subject to the replay
check), not discarded. -/
theorem C1_epoch_classification (remote_epoch : Nat) (q : List (List Byte))
    (pkt : List Byte) (enqueue : Bool) (h : RecordLayerHeader)
    (hdec : unmarshal_record_header pkt = some h) :
    (h.epoch = remote_epoch →
        handle_incoming_packet_epoch remote_epoch q pkt enqueue = (.processed, q))
    ∧ (h.epoch = remote_epoch + 1 → enqueue = true →
        handle_incoming_packet_epoch remote_epoch q pkt enqueue = (.queued, q ++ [pkt]))
    ∧ (h.epoch = remote_epoch + 1 → enqueue = false →
        handle_incoming_packet_epoch remote_epoch q pkt enqueue = (.discarded, q))
    ∧ (remote_epoch + 1 < h.epoch →
        handle_incoming_packet_epoch remote_epoch q pkt enqueue = (.discarded, q))
    ∧ (h.epoch < remote_epoch →
        handle_incoming_packet_epoch remote_epoch q pkt enqueue = (.processed, q)) := by
  simp only [handle_incoming_packet_epoch, hdec]
  refine ⟨fun h1 => ?_, fun h1 h2 => ?_, fun h1 h2 => ?_, fun h1 => ?_, fun h1 => ?_⟩
  · rw [if_neg (by omega)]
  · rw [if_pos (by omega), if_neg (by omega), if_pos h2]
  · rw [if_pos (by omega), if_neg (by omega), if_neg (by simp [h2])]
  · rw [if_pos (by omega), if_pos (by omega)]
  · rw [if_neg (by omega)]

/-- Witness for C1 (amended): a record at the current remote epoch is
processed. -/
theorem C1_epoch_classification_witness :
    handle_incoming_packet_epoch 1 []
        [22, 254, 253, 0, 1, 0, 0, 0, 0, 0, 0, 0, 0] true = (.processed, []) :=
  (C1_epoch_classification 1 [] [22, 254, 253, 0, 1, 0, 0, 0, 0, 0, 0, 0, 0] true
      { content_type := 22, version_major := 254, version_minor := 253
        epoch := 1, sequence_number := 0, length := 0 } rfl).1 rfl

/-- Claim C8: `Agent::handle_inbound` silently discards — emitting no
response and leaving the whole agent state unchanged — every inbound
binding message that carries ICE-CONTROLLING while the agent is
controlling, and every inbound binding message that carries
ICE-CONTROLLED while the agent is controlled. -/
theorem C8_role_conflict_discard (a : Agent) (m : StunMessage) (l : Candidate)
    (remote : SockAddr) (now : Nat)
    (hmeth : m.method = METHOD_BINDING)
    (hcls : m.msg_class = CLASS_SUCCESS_RESPONSE ∨ m.msg_class = CLASS_REQUEST ∨
      m.msg_class = CLASS_INDICATION)
    (hconflict :
      (a.is_controlling = true ∧ m.contains ATTR_ICE_CONTROLLING = true)
      ∨ (a.is_controlling = false ∧ m.contains ATTR_ICE_CONTROLLED = true)) :
    a.handle_inbound m l remote now = (a, []) := by
  unfold Agent.handle_inbound
  rcases hconflict with ⟨hc, hm⟩ | ⟨hc, hm⟩ <;> split_ifs <;> simp_all

/-- Witness for C8: a controlling agent drops a binding request carrying
ICE-CONTROLLING, unchanged and with no output. -/
theorem C8_role_conflict_discard_witness :
    test_controlling_agent.handle_inbound test_controlling_message
      test_local_candidate { ip := "127.0.0.1", port := 40001 } 5
      = (test_controlling_agent, []) :=
  C8_role_conflict_discard test_controlling_agent test_controlling_message
    test_local_candidate { ip := "127.0.0.1", port := 40001 } 5
    rfl (Or.inr (Or.inl rfl)) (Or.inl ⟨rfl, by decide⟩)

/-- Claim C9: `Agent::new` rejects every configuration whose `lite` flag
is false with `ErrLiteSupportOnly` — an agent can only be constructed in
lite mode — and rejects a lite configuration whose effective candidate
types (the configured list, or the library default when that list is
empty) are not exactly `[Host]` with `ErrLiteUsingNonHostCandidates`. -/
theorem C9_lite_only_construction (defaults : List CandidateType)
    (config : AgentConfig) :
    (config.lite = false → Agent.new defaults config = .error .errLiteSupportOnly)
    ∧ (config.lite = true →
        (if config.candidate_types.isEmpty then defaults else config.candidate_types)
          ≠ [CandidateType.host] →
        Agent.new defaults config = .error .errLiteUsingNonHostCandidates) := by
  constructor
  · intro hl
    simp [Agent.new, hl]
  · intro hl hne
    have hcond : config.lite = true ∧
        ¬((if config.candidate_types.isEmpty then defaults else config.candidate_types).length = 1 ∧
          (if config.candidate_types.isEmpty then defaults else config.candidate_types).head? =
            some CandidateType.host) :=
      ⟨hl, fun hcon => hne ((length_one_head_iff _ _).mp hcon)⟩
    simp only [Agent.new]
    rw [if_pos hcond]

/-- Witness for C9: a non-lite configuration and a lite configuration
with a non-host candidate type are both rejected. -/
theorem C9_lite_only_construction_witness :
    Agent.new [CandidateType.host] { test_agent_config with lite := false }
        = .error .errLiteSupportOnly
    ∧ Agent.new [CandidateType.host]
        { test_agent_config with candidate_types := [.host, .relay] }
        = .error .errLiteUsingNonHostCandidates :=
  ⟨(C9_lite_only_construction [CandidateType.host] _).1 rfl,
   (C9_lite_only_construction [CandidateType.host] _).2 rfl (by decide)⟩

/-- Claim C10: `Agent::add_remote_candidate` rejects a host candidate
whose address ends in `.local` with `ErrMulticastDnsNotSupported`,
leaving the agent (its remote candidates and its checklist) unchanged;
and a candidate equal to one already stored (and not itself an mDNS host
candidate, which the earlier guard rejects first) yields success with the
agent unchanged — no candidate added, no pair formed. -/
theorem C10_add_remote_candidate (a : Agent) (c : Candidate) :
    (c.candidate_type = .host → ends_with c.address ".local" = true →
        a.add_remote_candidate c = .error .errMulticastDnsNotSupported
        ∧ a.apply_op (.addRemote c) = a)
    ∧ (¬(c.candidate_type = .host ∧ ends_with c.address ".local" = true) →
        (∃ cand ∈ a.remote_candidates, cand.equal c = true) →
        a.add_remote_candidate c = .ok a ∧ a.apply_op (.addRemote c) = a) := by
  constructor
  · intro h1 h2
    have hg : (c.candidate_type == CandidateType.host && ends_with c.address ".local") = true := by
      simp [h1, h2]
    constructor
    · simp [Agent.add_remote_candidate, hg]
    · simp [Agent.apply_op, Agent.add_remote_candidate, hg]
  · intro h1 h2
    have hg : (c.candidate_type == CandidateType.host && ends_with c.address ".local") = false := by
      by_contra hcon
      rw [Bool.not_eq_false, Bool.and_eq_true, beq_iff_eq] at hcon
      exact h1 ⟨hcon.1, hcon.2⟩
    have hdup : a.remote_candidates.any (fun cand => cand.equal c) = true := by
      obtain ⟨cand, hmem, heq⟩ := h2
      exact List.any_eq_true.mpr ⟨cand, hmem, heq⟩
    constructor
    · simp [Agent.add_remote_candidate, hg, hdup]
    · simp [Agent.apply_op, Agent.add_remote_candidate, hg, hdup]

/-- Witness for C10: the mDNS candidate is rejected and a duplicate is
accepted without change. -/
theorem C10_add_remote_candidate_witness :
    test_controlling_agent.add_remote_candidate test_mdns_candidate
        = .error .errMulticastDnsNotSupported
    ∧ test_controlling_agent.add_remote_candidate test_remote_candidate
        = .ok test_controlling_agent :=
  ⟨((C10_add_remote_candidate test_controlling_agent test_mdns_candidate).1
      rfl (by decide)).1,
   ((C10_add_remote_candidate test_controlling_agent test_remote_candidate).2
      (by decide) ⟨test_remote_candidate, by simp [test_controlling_agent], by decide⟩).1⟩

/-- `getD` after `set` at an in-bounds index yields the written value. -/
theorem getD_set_self (l : List Nat) (n a : Nat) (h : n < l.length) :
    (l.set n a).getD n 0 = a := by
  induction l generalizing n with
  | nil => simp at h
  | cons x t ih =>
      cases n with
      | zero => simp [List.getD]
      | succ m => simpa [List.getD] using ih m (by simpa using h)

/-- `getD` of a zero-filled list is zero. -/
theorem getD_replicate_zero (n m : Nat) : (List.replicate n (0 : Nat)).getD m 0 = 0 := by
  induction n generalizing m with
  | zero => simp [List.getD]
  | succ k ih =>
      cases m with
      | zero => simp [List.replicate, List.getD]
      | succ j => simp only [List.replicate, List.getD_cons_succ]; exact ih j

/-- Length of the extended counter vector. -/
theorem extend_lsn_length (lsn : List Nat) (e : Nat) :
    (extend_lsn lsn e).length = max lsn.length (e + 1) := by
  simp [extend_lsn]
  omega

/-- Extending an already long enough counter vector changes nothing. -/
theorem extend_lsn_of_le (lsn : List Nat) (e : Nat) (h : e + 1 ≤ lsn.length) :
    extend_lsn lsn e = lsn := by
  simp [extend_lsn, Nat.sub_eq_zero_of_le h]

/-- The allocated sequence number is the epoch's current counter value. -/
theorem allocate_sequence_snd (lsn : List Nat) (e : Nat) :
    (allocate_sequence lsn e).2 = lsn_counter lsn e := rfl

/-- The updated counter vector after an allocation. -/
theorem allocate_sequence_fst (lsn : List Nat) (e : Nat) :
    (allocate_sequence lsn e).1 = (extend_lsn lsn e).set e (lsn_counter lsn e + 1) := rfl

/-- An allocation advances the epoch's counter by one. -/
theorem lsn_counter_allocate (lsn : List Nat) (e : Nat) :
    lsn_counter (allocate_sequence lsn e).1 e = lsn_counter lsn e + 1 := by
  have hlen : e < (extend_lsn lsn e).length := by
    rw [extend_lsn_length]; omega
  have hset : e + 1 ≤ ((extend_lsn lsn e).set e (lsn_counter lsn e + 1)).length := by
    rw [List.length_set]; omega
  rw [allocate_sequence_fst]
  show (extend_lsn ((extend_lsn lsn e).set e (lsn_counter lsn e + 1)) e).getD e 0 = _
  rw [extend_lsn_of_le _ _ hset]
  exact getD_set_self _ _ _ hlen

/-- The counter of a fresh vector is zero. -/
theorem lsn_counter_nil (e : Nat) : lsn_counter [] e = 0 := by
  simp only [lsn_counter, extend_lsn, List.nil_append, List.length_nil, Nat.sub_zero]
  exact getD_replicate_zero _ _

/-- Successive allocations in one epoch hand out the consecutive run of
sequence numbers starting at the epoch's current counter. -/
theorem allocate_sequence_trace_eq (e : Nat) :
    ∀ (k : Nat) (lsn : List Nat),
      allocate_sequence_trace lsn e k = List.range' (lsn_counter lsn e) k := by
  intro k
  induction k with
  | zero => intro lsn; rfl
  | succ n ih =>
      intro lsn
      have hl' : lsn_counter (allocate_sequence lsn e).1 e = lsn_counter lsn e + 1 :=
        lsn_counter_allocate lsn e
      rcases halloc : allocate_sequence lsn e with ⟨l', s⟩
      have hs : s = lsn_counter lsn e := by rw [← allocate_sequence_snd, halloc]
      rw [halloc] at hl'
      rw [List.range'_succ]
      simp only [allocate_sequence_trace, halloc]
      rw [hs, ih l', hl']

/-- `process_packet` written as an explicit pair: the updated counters and
either the overflow error or the marshalled record. -/
theorem process_packet_eq (lsn : List Nat) (e ct : Nat) (payload : List Byte) :
    process_packet lsn e ct payload =
      ((allocate_sequence lsn e).1,
       if MAX_SEQUENCE_NUMBER < lsn_counter lsn e then .error .errSequenceNumberOverflow
       else .ok (marshal_record_header ct e (lsn_counter lsn e) payload.length ++ payload)) := by
  rcases halloc : allocate_sequence lsn e with ⟨l', s⟩
  have hs : s = lsn_counter lsn e := by rw [← allocate_sequence_snd, halloc]
  subst hs
  simp only [process_packet, halloc]
  by_cases hc : MAX_SEQUENCE_NUMBER < lsn_counter lsn e <;> simp [hc]

/-- One step of the `process_fragments` loop, as an explicit equation. -/
theorem process_fragments_cons (lsn : List Nat) (e : Nat) (f : HandshakeFragment)
    (fs : List HandshakeFragment) :
    process_fragments lsn e (f :: fs) =
      if MAX_SEQUENCE_NUMBER < lsn_counter lsn e then
        ((allocate_sequence lsn e).1, .error .errSequenceNumberOverflow)
      else
        match process_fragments (allocate_sequence lsn e).1 e fs with
        | (lsn'', .ok rest) =>
            (lsn'', .ok ((marshal_record_header 22 e (lsn_counter lsn e)
              (marshal_handshake_header f.header ++ f.data).length ++
              (marshal_handshake_header f.header ++ f.data)) :: rest))
        | (lsn'', .error err) => (lsn'', .error err) := by
  rcases halloc : allocate_sequence lsn e with ⟨l', s⟩
  have hs : s = lsn_counter lsn e := by rw [← allocate_sequence_snd, halloc]
  subst hs
  simp only [process_fragments, halloc]

/-- `process_fragments` reports an overflow exactly when one of the
sequence numbers it would allocate (the consecutive run starting at the
epoch's counter, one per fragment) exceeds the 48-bit bound. -/
theorem process_fragments_error_iff (e : Nat) :
    ∀ (fs : List HandshakeFragment) (lsn : List Nat),
      (process_fragments lsn e fs).2 = .error .errSequenceNumberOverflow ↔
        ∃ i < fs.length, MAX_SEQUENCE_NUMBER < lsn_counter lsn e + i := by
  intro fs
  induction fs with
  | nil => intro lsn; simp [process_fragments]
  | cons f fs ih =>
      intro lsn
      have hl' : lsn_counter (allocate_sequence lsn e).1 e = lsn_counter lsn e + 1 :=
        lsn_counter_allocate lsn e
      have hrec := ih (allocate_sequence lsn e).1
      rw [hl'] at hrec
      rw [process_fragments_cons]
      by_cases hover : MAX_SEQUENCE_NUMBER < lsn_counter lsn e
      · rw [if_pos hover]
        constructor
        · intro _; exact ⟨0, by simp, by omega⟩
        · intro _; rfl
      · rw [if_neg hover]
        rcases hmatch : process_fragments (allocate_sequence lsn e).1 e fs with ⟨l2, r2⟩
        rw [hmatch] at hrec
        cases r2 with
        | ok v =>
            simp only at hrec ⊢
            constructor
            · intro hcon; simp at hcon
            · rintro ⟨i, hi, hio⟩
              exfalso
              cases i with
              | zero => omega
              | succ j =>
                  have : (∃ i < fs.length, MAX_SEQUENCE_NUMBER < lsn_counter lsn e + 1 + i) :=
                    ⟨j, by simp only [List.length_cons] at hi; omega, by omega⟩
                  have hfalse := hrec.mpr this
                  simp at hfalse
        | error err =>
            simp only at hrec ⊢
            constructor
            · intro hl
              simp only [Except.error.injEq] at hl
              obtain ⟨j, hj, hjo⟩ := hrec.mp (by simp [hl])
              exact ⟨j + 1, by simp only [List.length_cons]; omega, by omega⟩
            · rintro ⟨i, hi, hio⟩
              cases i with
              | zero => omega
              | succ j =>
                  have herr := hrec.mpr
                    ⟨j, by simp only [List.length_cons] at hi; omega, by omega⟩
                  simpa using herr

/-- Claim C4: per-epoch outbound sequence numbers are allocated
consecutively from 0 (the first `k` allocations of a fresh epoch are
`0, ..., k-1`, and in general a run of allocations is the consecutive run
starting at the epoch's counter); `process_packet` and
`process_handshake_packet` fail with `ErrSequenceNumberOverflow` exactly
when an allocated sequence number exceeds `2^48 - 1`; and at the
boundary, a record allocated sequence `2^48 - 1` marshals successfully
while the next allocation in that epoch fails fatally.  Allocation
happens before the `should_encrypt` check, so unencrypted epoch-0 records
consume sequence numbers identically. -/
theorem C4_sequence_allocation (epoch : Nat) (lsn : List Nat) (ct ct' : Nat)
    (payload payload' : List Byte) (mtu : Nat) (h : HandshakeMsg) :
    (∀ k, allocate_sequence_trace [] epoch k = List.range k)
    ∧ (∀ k, allocate_sequence_trace lsn epoch k = List.range' (lsn_counter lsn epoch) k)
    ∧ ((process_packet lsn epoch ct payload).2 = .error .errSequenceNumberOverflow ↔
        MAX_SEQUENCE_NUMBER < (allocate_sequence lsn epoch).2)
    ∧ ((process_handshake_packet lsn epoch mtu h).2 = .error .errSequenceNumberOverflow ↔
        ∃ i < (fragment_handshake mtu h).length,
          MAX_SEQUENCE_NUMBER < lsn_counter lsn epoch + i)
    ∧ (lsn_counter lsn epoch = MAX_SEQUENCE_NUMBER →
        (process_packet lsn epoch ct payload).2 =
          .ok (marshal_record_header ct epoch MAX_SEQUENCE_NUMBER payload.length ++ payload)
        ∧ (process_packet (process_packet lsn epoch ct payload).1 epoch ct' payload').2 =
            .error .errSequenceNumberOverflow) := by
  refine ⟨?_, ?_, ?_, ?_, ?_⟩
  · intro k
    rw [allocate_sequence_trace_eq, lsn_counter_nil, List.range_eq_range']
  · intro k
    exact allocate_sequence_trace_eq epoch k lsn
  · rw [process_packet_eq, allocate_sequence_snd]
    by_cases hc : MAX_SEQUENCE_NUMBER < lsn_counter lsn epoch <;> simp [hc]
  · exact process_fragments_error_iff epoch (fragment_handshake mtu h) lsn
  · intro hc
    constructor
    · rw [process_packet_eq, hc]
      simp
    · rw [process_packet_eq, process_packet_eq]
      simp only [lsn_counter_allocate, hc]
      rw [if_pos (by omega)]

/-- Witness for C4: three allocations of a fresh epoch yield `0, 1, 2`,
a counter at `2^48 - 1` still marshals, and the next allocation
overflows. -/
theorem C4_sequence_allocation_witness :
    allocate_sequence_trace [] 0 3 = [0, 1, 2]
    ∧ (process_packet [2 ^ 48 - 1] 0 23 [7]).2 =
        .ok (marshal_record_header 23 0 (2 ^ 48 - 1) 1 ++ [7])
    ∧ (process_packet (process_packet [2 ^ 48 - 1] 0 23 [7]).1 0 23 [8]).2 =
        .error .errSequenceNumberOverflow := by
  have h1 := (C4_sequence_allocation 0 [] 23 23 [7] [8] 1
    { handshake_header := { handshake_type := 1, length := 0, message_sequence := 0
                            fragment_offset := 0, fragment_length := 0 }
      body := [] }).1 3
  have h5 := (C4_sequence_allocation 0 [2 ^ 48 - 1] 23 23 [7] [8] 1
    { handshake_header := { handshake_type := 1, length := 0, message_sequence := 0
                            fragment_offset := 0, fragment_length := 0 }
      body := [] }).2.2.2.2 (by decide)
  refine ⟨by simpa using h1, ?_, ?_⟩
  · have := h5.1
    simpa [MAX_SEQUENCE_NUMBER] using this
  · exact h5.2

/-- `split_bytes` of an empty byte string is empty. -/
theorem split_bytes_nil (k : Nat) : split_bytes [] k = [] := by
  rw [split_bytes]; simp

/-- One unfolding of `split_bytes` on a non-empty byte string. -/
theorem split_bytes_cons_eq (b : List Byte) (k : Nat) (hk : k ≠ 0) (hb : b ≠ []) :
    split_bytes b k = b.take k :: split_bytes (b.drop k) k := by
  rw [split_bytes, if_neg (by simp [hk, hb])]

/-- `split_bytes` yields no chunks exactly for the empty byte string. -/
theorem split_bytes_eq_nil_iff (k : Nat) (hk : 1 ≤ k) (b : List Byte) :
    split_bytes b k = [] ↔ b = [] := by
  constructor
  · intro hs
    by_contra hb
    rw [split_bytes_cons_eq b k (by omega) hb] at hs
    simp at hs
  · intro hb; subst hb; exact split_bytes_nil k

/-- Concatenating the chunks restores the byte string. -/
theorem split_bytes_flatten (k : Nat) (hk : 1 ≤ k) (b : List Byte) :
    (split_bytes b k).flatten = b := by
  have main : ∀ (n : Nat) (b : List Byte), b.length ≤ n → (split_bytes b k).flatten = b := by
    intro n
    induction n with
    | zero =>
        intro b hb
        cases b with
        | nil => rw [split_bytes_nil]; rfl
        | cons x t => simp at hb
    | succ n ih =>
        intro b hb
        by_cases hbe : b = []
        · subst hbe; rw [split_bytes_nil]; rfl
        · rw [split_bytes_cons_eq b k (by omega) hbe]
          rw [List.flatten_cons, ih (b.drop k) (by rw [List.length_drop]; omega)]
          exact List.take_append_drop k b
  exact main b.length b le_rfl

/-- The number of chunks is the ceiling of `|b| / k`. -/
theorem split_bytes_length (k : Nat) (hk : 1 ≤ k) (b : List Byte) :
    (split_bytes b k).length = (b.length + k - 1) / k := by
  have main : ∀ (n : Nat) (b : List Byte), b.length ≤ n →
      (split_bytes b k).length = (b.length + k - 1) / k := by
    intro n
    induction n with
    | zero =>
        intro b hb
        cases b with
        | nil =>
            rw [split_bytes_nil]
            simp only [List.length_nil, Nat.zero_add]
            symm
            exact Nat.div_eq_of_lt (by omega)
        | cons x t => simp at hb
    | succ n ih =>
        intro b hb
        by_cases hbe : b = []
        · subst hbe
          rw [split_bytes_nil]
          simp only [List.length_nil, Nat.zero_add]
          symm
          exact Nat.div_eq_of_lt (by omega)
        · have hlen1 : 1 ≤ b.length := List.length_pos.mpr hbe
          rw [split_bytes_cons_eq b k (by omega) hbe]
          rw [List.length_cons, ih (b.drop k) (by rw [List.length_drop]; omega),
            List.length_drop]
          rcases le_or_lt b.length k with hle | hlt
          · rw [Nat.sub_eq_zero_of_le hle, Nat.div_eq_of_lt (by omega)]
            rw [show b.length + k - 1 = (b.length - 1) + k by omega]
            rw [Nat.add_div_right _ (by omega), Nat.div_eq_of_lt (by omega)]
          · rw [show b.length + k - 1 = (b.length - k + k - 1) + k by omega]
            rw [Nat.add_div_right _ (by omega)]
  exact main b.length b le_rfl

/-- `fragment_stamp` produces one fragment per chunk. -/
theorem fragment_stamp_length (h : HandshakeHeader) :
    ∀ (off : Nat) (cs : List (List Byte)),
      (fragment_stamp h off cs).length = cs.length := by
  intro off cs
  induction cs generalizing off with
  | nil => rfl
  | cons c cs ih => simp [fragment_stamp, ih]

/-- Every stamped fragment carries the original type, total length and
message sequence, and its own data length (as a `u32`). -/
theorem fragment_stamp_fields (h : HandshakeHeader) :
    ∀ (off : Nat) (cs : List (List Byte)), ∀ f ∈ fragment_stamp h off cs,
      f.header.handshake_type = h.handshake_type
      ∧ f.header.length = h.length
      ∧ f.header.message_sequence = h.message_sequence
      ∧ f.header.fragment_length = f.data.length % 2 ^ 32 := by
  intro off cs
  induction cs generalizing off with
  | nil => intro f hf; simp [fragment_stamp] at hf
  | cons c cs ih =>
      intro f hf
      rw [fragment_stamp] at hf
      rcases List.mem_cons.mp hf with hf0 | hfs
      · subst hf0; exact ⟨rfl, rfl, rfl, rfl⟩
      · exact ih (off + c.length) f hfs

/-- Offsets and lengths of stamped fragments, with no wrap-around while
the accumulated offset stays below `2^32`: the per-fragment lengths are
the chunk lengths, and each fragment's offset is the accumulator plus the
total length of the chunks before it. -/
theorem fragment_stamp_spec (h : HandshakeHeader) :
    ∀ (cs : List (List Byte)) (off : Nat),
      off + (cs.map List.length).sum < 2 ^ 32 →
      ((fragment_stamp h off cs).map (fun f => f.header.fragment_length) =
          cs.map List.length
        ∧ ∀ i < cs.length,
            ((fragment_stamp h off cs).getD i default_fragment).header.fragment_offset =
              off + ((cs.take i).map List.length).sum) := by
  intro cs
  induction cs with
  | nil =>
      intro off hb
      exact ⟨rfl, by intro i hi; simp at hi⟩
  | cons c cs ih =>
      intro off hb
      simp only [List.map_cons, List.sum_cons] at hb
      obtain ⟨ihmap, ihoff⟩ := ih (off + c.length) (by omega)
      constructor
      · simp only [fragment_stamp, List.map_cons]
        rw [Nat.mod_eq_of_lt (by omega), ihmap]
      · intro i hi
        cases i with
        | zero =>
            simp only [fragment_stamp, List.getD_cons_zero, List.take_zero,
              List.map_nil, List.sum_nil, Nat.add_zero]
            exact Nat.mod_eq_of_lt (by omega)
        | succ j =>
            simp only [fragment_stamp, List.getD_cons_succ, List.take_succ_cons,
              List.map_cons, List.sum_cons]
            rw [ihoff j (by simpa using hi)]
            omega

/-- Claim C5: for every outbound handshake message with marshalled body
`b` and every MTU budget at least 1 (with `|b| < 2^32`, the width of the
offset field), `fragment_handshake` produces `⌈|b|/mtu⌉` fragments when
`b` is non-empty and exactly one empty fragment when `b` is empty; every
fragment carries the message's original length and message sequence (and
type); the fragment offsets start at 0 and each equals the sum of the
preceding fragment lengths — no gaps, no overlaps; and the fragment
lengths sum to `|b|`. -/
theorem C5_fragmentation (mtu : Nat) (h : HandshakeMsg)
    (hmtu : 1 ≤ mtu) (hbody : h.body.length < 2 ^ 32) :
    (fragment_handshake mtu h).length =
        (if h.body = [] then 1 else (h.body.length + mtu - 1) / mtu)
    ∧ (∀ f ∈ fragment_handshake mtu h,
        f.header.handshake_type = h.handshake_header.handshake_type
        ∧ f.header.length = h.handshake_header.length
        ∧ f.header.message_sequence = h.handshake_header.message_sequence)
    ∧ (∀ i < (fragment_handshake mtu h).length,
        ((fragment_handshake mtu h).getD i default_fragment).header.fragment_offset =
          (((fragment_handshake mtu h).take i).map
            (fun f => f.header.fragment_length)).sum)
    ∧ ((fragment_handshake mtu h).map (fun f => f.header.fragment_length)).sum
        = h.body.length := by
  have hunfold : fragment_handshake mtu h =
      fragment_stamp h.handshake_header 0
        (if split_bytes h.body mtu = [] then [[]] else split_bytes h.body mtu) := rfl
  have hsum : ((if split_bytes h.body mtu = [] then [[]]
      else split_bytes h.body mtu).map List.length).sum = h.body.length := by
    by_cases hbe : h.body = []
    · rw [if_pos (by rw [split_bytes_eq_nil_iff mtu hmtu]; exact hbe)]
      simp [hbe]
    · rw [if_neg (by rw [split_bytes_eq_nil_iff mtu hmtu]; exact hbe)]
      rw [← List.length_flatten, split_bytes_flatten mtu hmtu]
  have hlt : 0 + ((if split_bytes h.body mtu = [] then [[]]
      else split_bytes h.body mtu).map List.length).sum < 2 ^ 32 := by
    rw [hsum]; omega
  obtain ⟨hmap, hoff⟩ := fragment_stamp_spec h.handshake_header _ 0 hlt
  refine ⟨?_, ?_, ?_, ?_⟩
  · rw [hunfold, fragment_stamp_length]
    by_cases hbe : h.body = []
    · rw [if_pos (by rw [split_bytes_eq_nil_iff mtu hmtu]; exact hbe), if_pos hbe]
      rfl
    · rw [if_neg (by rw [split_bytes_eq_nil_iff mtu hmtu]; exact hbe), if_neg hbe]
      exact split_bytes_length mtu hmtu h.body
  · intro f hf
    rw [hunfold] at hf
    obtain ⟨h1, h2, h3, _⟩ := fragment_stamp_fields h.handshake_header 0 _ f hf
    exact ⟨h1, h2, h3⟩
  · intro i hi
    rw [hunfold] at hi ⊢
    rw [fragment_stamp_length] at hi
    rw [hoff i hi]
    have hmt : ((fragment_stamp h.handshake_header 0
        (if split_bytes h.body mtu = [] then [[]] else split_bytes h.body mtu)).take i).map
          (fun f => f.header.fragment_length) =
        ((if split_bytes h.body mtu = [] then [[]]
          else split_bytes h.body mtu).take i).map List.length := by
      rw [List.map_take, hmap, List.map_take]
    rw [hmt]
    omega
  · rw [hunfold, hmap, hsum]

/-- Witness for C5: a five-byte body under MTU 2 fragments into chunks of
2, 2 and 1 with cumulative offsets. -/
theorem C5_fragmentation_witness :
    (fragment_handshake 2
        { handshake_header := { handshake_type := 1, length := 5, message_sequence := 9
                                fragment_offset := 0, fragment_length := 5 }
          body := [10, 11, 12, 13, 14] }).length = 3
    ∧ ((fragment_handshake 2
        { handshake_header := { handshake_type := 1, length := 5, message_sequence := 9
                                fragment_offset := 0, fragment_length := 5 }
          body := [10, 11, 12, 13, 14] }).map
          (fun f => f.header.fragment_length)).sum = 5 := by
  have hc := C5_fragmentation 2
    { handshake_header := { handshake_type := 1, length := 5, message_sequence := 9
                            fragment_offset := 0, fragment_length := 5 }
      body := [10, 11, 12, 13, 14] } (by omega) (by decide)
  exact ⟨by simpa using hc.1, hc.2.2.2⟩

/-- The stamping loop of `prepare`: the handshake records of the output
carry the consecutive run of send-sequence values starting at the input
counter (each through the `as u16` cast), and the counter advances by the
number of handshake records. -/
theorem prepare_packets_spec (epoch : Nat) :
    ∀ (ps : List Packet) (ne hss : Nat),
      handshake_seqs (prepare_packets epoch ps ne hss).1 =
          (List.range' hss (handshake_count (prepare_packets epoch ps ne hss).1)).map
            (· % 2 ^ 16)
      ∧ (prepare_packets epoch ps ne hss).2.2 =
          hss + handshake_count (prepare_packets epoch ps ne hss).1 := by
  intro ps
  induction ps with
  | nil =>
      intro ne hss
      simp [prepare_packets, handshake_seqs, handshake_count]
  | cons p ps ih =>
      intro ne hss
      cases hc : p.content with
      | handshake hm =>
          obtain ⟨ih1, ih2⟩ := ih (max ne ((p.epoch + epoch) % 2 ^ 16)) (hss + 1)
          rcases hrec : prepare_packets epoch ps (max ne ((p.epoch + epoch) % 2 ^ 16))
              (hss + 1) with ⟨ps', ne2, hss2⟩
          rw [hrec] at ih1 ih2
          simp only at ih1 ih2
          simp only [prepare_packets, hc, hrec]
          constructor
          · simp only [handshake_seqs, handshake_count] at ih1 ⊢
            simp only [List.filterMap_cons, List.length_cons, List.range'_succ,
              List.map_cons]
            exact congrArg (List.cons (hss % 2 ^ 16)) ih1
          · simp only [handshake_seqs, handshake_count] at ih2 ⊢
            simp only [List.filterMap_cons, List.length_cons]
            omega
      | changeCipherSpec =>
          obtain ⟨ih1, ih2⟩ := ih (max ne ((p.epoch + epoch) % 2 ^ 16)) hss
          rcases hrec : prepare_packets epoch ps (max ne ((p.epoch + epoch) % 2 ^ 16))
              hss with ⟨ps', ne2, hss2⟩
          rw [hrec] at ih1 ih2
          simp only at ih1 ih2
          simp only [prepare_packets, hc, hrec]
          exact ⟨by simpa [handshake_seqs, handshake_count, List.filterMap_cons] using ih1,
            by simpa [handshake_seqs, handshake_count, List.filterMap_cons] using ih2⟩
      | alert a =>
          obtain ⟨ih1, ih2⟩ := ih (max ne ((p.epoch + epoch) % 2 ^ 16)) hss
          rcases hrec : prepare_packets epoch ps (max ne ((p.epoch + epoch) % 2 ^ 16))
              hss with ⟨ps', ne2, hss2⟩
          rw [hrec] at ih1 ih2
          simp only at ih1 ih2
          simp only [prepare_packets, hc, hrec]
          exact ⟨by simpa [handshake_seqs, handshake_count, List.filterMap_cons] using ih1,
            by simpa [handshake_seqs, handshake_count, List.filterMap_cons] using ih2⟩
      | applicationData d =>
          obtain ⟨ih1, ih2⟩ := ih (max ne ((p.epoch + epoch) % 2 ^ 16)) hss
          rcases hrec : prepare_packets epoch ps (max ne ((p.epoch + epoch) % 2 ^ 16))
              hss with ⟨ps', ne2, hss2⟩
          rw [hrec] at ih1 ih2
          simp only at ih1 ih2
          simp only [prepare_packets, hc, hrec]
          exact ⟨by simpa [handshake_seqs, handshake_count, List.filterMap_cons] using ih1,
            by simpa [handshake_seqs, handshake_count, List.filterMap_cons] using ih2⟩

/-- `prepare_finish` with no stored flight changes nothing. -/
theorem prepare_finish_none {Fl : Type} (cfg : HandshakeCfg) (c : Conn Fl)
    (h : c.flights = none) : prepare_finish cfg c = (.sending, c) := by
  simp [prepare_finish, h]

/-- `prepare_finish` with a stored flight: the result stores the stamped
packets and the advanced counter (the epoch bump touches only
`local_epoch`). -/
theorem prepare_finish_some {Fl : Type} (cfg : HandshakeCfg) (c : Conn Fl)
    (pkts : List Packet) (h : c.flights = some pkts) :
    (prepare_finish cfg c).1 = .sending
    ∧ (prepare_finish cfg c).2.flights =
        some (prepare_packets cfg.initial_epoch pkts cfg.initial_epoch
          c.state.handshake_send_sequence).1
    ∧ (prepare_finish cfg c).2.state.handshake_send_sequence =
        (prepare_packets cfg.initial_epoch pkts cfg.initial_epoch
          c.state.handshake_send_sequence).2.2 := by
  rcases hrec : prepare_packets cfg.initial_epoch pkts cfg.initial_epoch
      c.state.handshake_send_sequence with ⟨ps', ne2, hss2⟩
  simp only [prepare_finish, h, hrec]
  split <;> simp

/-- Case analysis of a successful `prepare`: either `generate` failed
benignly and the stored flight stays empty with the counter untouched, or
the stored flight holds the stamped packets whose handshake records carry
the consecutive send sequences from the old counter, which advances by
their number. -/
theorem prepare_cases {Fl : Type} (I : FlightIface Fl)
    (hI : PreservesSendSequence I) (cfg : HandshakeCfg) (c : Conn Fl)
    (st : HandshakeState) (c' : Conn Fl)
    (hp : prepare I cfg c = .ok (st, c')) :
    (c'.flights = none
      ∧ c'.state.handshake_send_sequence = c.state.handshake_send_sequence)
    ∨ (∃ pkts, c'.flights = some pkts
        ∧ handshake_seqs pkts =
            (List.range' c.state.handshake_send_sequence (handshake_count pkts)).map
              (· % 2 ^ 16)
        ∧ c'.state.handshake_send_sequence =
            c.state.handshake_send_sequence + handshake_count pkts) := by
  have hgseq := (hI c.current_flight c.state).1
  rcases hgen : I.generate c.current_flight c.state with ⟨st0, res⟩
  rw [hgen] at hgseq
  simp only at hgseq
  cases res with
  | error ae =>
      rcases ae with ⟨a, err⟩
      cases err with
      | some e =>
          exfalso
          cases a <;> simp [prepare, hgen] at hp
      | none =>
          left
          cases a with
          | none =>
              simp only [prepare, hgen] at hp
              rw [prepare_finish_none cfg _ rfl] at hp
              simp only [Except.ok.injEq, Prod.mk.injEq] at hp
              obtain ⟨-, hc'⟩ := hp
              rw [← hc']
              exact ⟨rfl, hgseq⟩
          | some al =>
              simp only [prepare, hgen, notify] at hp
              rw [prepare_finish_none cfg _ rfl] at hp
              simp only [Except.ok.injEq, Prod.mk.injEq] at hp
              obtain ⟨-, hc'⟩ := hp
              rw [← hc']
              exact ⟨rfl, hgseq⟩
  | ok pkts0 =>
      right
      simp only [prepare, hgen] at hp
      simp only [Except.ok.injEq] at hp
      have hfin := prepare_finish_some cfg
        { c with flights := some pkts0
                 retransmit := I.has_retransmit c.current_flight
                 state := st0 } pkts0 rfl
      rw [hp] at hfin
      obtain ⟨-, hfl, hhss⟩ := hfin
      obtain ⟨hseqs, hcount⟩ := prepare_packets_spec cfg.initial_epoch pkts0
        cfg.initial_epoch st0.handshake_send_sequence
      refine ⟨(prepare_packets cfg.initial_epoch pkts0 cfg.initial_epoch
          st0.handshake_send_sequence).1, ?_, ?_, ?_⟩
      · simpa using hfl
      · rw [hseqs, hgseq]
      · simp only at hhss
        rw [hhss, hcount, hgseq]

/-- `send` enqueues the stored flight packets unchanged — same packets,
same stored flight, same cryptographic state. -/
theorem send_spec {Fl : Type} (I : FlightIface Fl) (cfg : HandshakeCfg) (now : Nat)
    (c : Conn Fl) (st : HandshakeState) (c' : Conn Fl)
    (hs : send I cfg now c = .ok (st, c')) :
    c'.outgoing_packets = c.outgoing_packets ++ c.flights.getD []
    ∧ c'.flights = c.flights
    ∧ c'.state = c.state := by
  rcases hf : c.flights with _ | pkts <;>
    rcases hl : I.is_last_send_flight c.current_flight with _ | _ <;>
      · simp only [send, hf, hl, Bool.false_eq_true, if_true, if_false,
          Except.ok.injEq, Prod.mk.injEq] at hs
        obtain ⟨-, hc'⟩ := hs
        subst hc'
        exact ⟨by simp [hf], by simp [hf], rfl⟩

/-- `wait` never changes the send-sequence counter (with flights that do
not touch it). -/
theorem wait_hss {Fl : Type} (I : FlightIface Fl) (hI : PreservesSendSequence I)
    (c : Conn Fl) (st : HandshakeState) (c' : Conn Fl)
    (hw : wait I c = .ok (st, c')) :
    c'.state.handshake_send_sequence = c.state.handshake_send_sequence := by
  have hpseq := (hI c.current_flight c.state).2
  cases hrx : c.handshake_rx with
  | none =>
      simp only [wait, hrx, Except.ok.injEq, Prod.mk.injEq] at hw
      obtain ⟨-, hc'⟩ := hw
      rw [← hc']
  | some u =>
      rcases hparse : I.parse c.current_flight c.state with ⟨st0, res⟩
      rw [hparse] at hpseq
      simp only at hpseq
      simp only [wait, hrx, hparse] at hw
      cases res with
      | error ae =>
          rcases ae with ⟨a, err⟩
          cases err with
          | some e => exact Except.noConfusion hw
          | none =>
              cases a with
              | none =>
                  simp only [Except.ok.injEq, Prod.mk.injEq] at hw
                  obtain ⟨-, hc'⟩ := hw
                  rw [← hc']
                  exact hpseq
              | some al =>
                  simp only [notify, Except.ok.injEq, Prod.mk.injEq] at hw
                  obtain ⟨-, hc'⟩ := hw
                  rw [← hc']
                  exact hpseq
      | ok nf =>
          split at hw
          · rename_i heq
            exact Except.noConfusion heq
          · split at hw <;>
              · simp only [Except.ok.injEq, Prod.mk.injEq] at hw
                obtain ⟨-, hc'⟩ := hw
                rw [← hc']
                exact hpseq

/-- `finish` never changes the send-sequence counter (with flights that
do not touch it). -/
theorem finish_hss {Fl : Type} (I : FlightIface Fl) (hI : PreservesSendSequence I)
    (c : Conn Fl) (st : HandshakeState) (c' : Conn Fl)
    (hw : finish I c = .ok (st, c')) :
    c'.state.handshake_send_sequence = c.state.handshake_send_sequence := by
  have hpseq := (hI c.current_flight c.state).2
  cases hrx : c.handshake_rx with
  | none =>
      simp only [finish, hrx, Except.ok.injEq, Prod.mk.injEq] at hw
      obtain ⟨-, hc'⟩ := hw
      rw [← hc']
  | some u =>
      rcases hparse : I.parse c.current_flight c.state with ⟨st0, res⟩
      rw [hparse] at hpseq
      simp only at hpseq
      simp only [finish, hrx, hparse] at hw
      cases res with
      | error ae =>
          rcases ae with ⟨a, err⟩
          cases err with
          | some e => exact Except.noConfusion hw
          | none =>
              cases a with
              | none =>
                  simp only [Except.ok.injEq, Prod.mk.injEq] at hw
                  obtain ⟨-, hc'⟩ := hw
                  rw [← hc']
                  exact hpseq
              | some al =>
                  simp only [notify, Except.ok.injEq, Prod.mk.injEq] at hw
                  obtain ⟨-, hc'⟩ := hw
                  rw [← hc']
                  exact hpseq
      | ok nf =>
          simp only [Except.ok.injEq, Prod.mk.injEq] at hw
          obtain ⟨-, hc'⟩ := hw
          rw [← hc']
          exact hpseq

/-- The send-sequence counter never decreases across one FSM step. -/
theorem handshake_step_hss_mono {Fl : Type} (I : FlightIface Fl)
    (hI : PreservesSendSequence I) (cfg : HandshakeCfg) (now : Nat)
    (c : Conn Fl) (st : HandshakeState) (c' : Conn Fl)
    (hs : handshake_step I cfg now c = .ok (st, c')) :
    c.state.handshake_send_sequence ≤ c'.state.handshake_send_sequence := by
  cases hcs : c.current_handshake_state with
  | preparing =>
      simp only [handshake_step, hcs] at hs
      rcases prepare_cases I hI cfg c st c' hs with ⟨-, h⟩ | ⟨pkts, -, -, h⟩ <;> omega
  | sending =>
      simp only [handshake_step, hcs] at hs
      obtain ⟨-, -, hstate⟩ := send_spec I cfg now c st c' hs
      rw [hstate]
  | waiting =>
      simp only [handshake_step, hcs] at hs
      rw [wait_hss I hI c st c' hs]
  | finished =>
      simp only [handshake_step, hcs] at hs
      rw [finish_hss I hI c st c' hs]
  | errored =>
      simp only [handshake_step, hcs] at hs
      exact Except.noConfusion hs

/-- Timer expiry in `Waiting` with a retransmitting flight re-enters the
loop at `Sending`. -/
theorem handshake_timeout_waiting {Fl : Type} (I : FlightIface Fl)
    (cfg : HandshakeCfg) (now fuel : Nat) (c : Conn Fl)
    (hw : c.current_handshake_state = .waiting) (hr : c.retransmit = true) :
    handshake_timeout I cfg now fuel c =
      handshake_fuel I cfg now fuel { c with current_handshake_state := .sending } := by
  simp [handshake_timeout, hw, hr]

/-- Timer expiry in `Finished` re-enters the loop at `Sending`. -/
theorem handshake_timeout_finished {Fl : Type} (I : FlightIface Fl)
    (cfg : HandshakeCfg) (now fuel : Nat) (c : Conn Fl)
    (hf : c.current_handshake_state = .finished) :
    handshake_timeout I cfg now fuel c =
      handshake_fuel I cfg now fuel { c with current_handshake_state := .sending } := by
  simp [handshake_timeout, hf]

/-- Reducing the `as u16` casts when the whole run fits in 16 bits. -/
theorem map_mod_range' (s k m : Nat) (h : s + k ≤ m) :
    (List.range' s k).map (· % m) = List.range' s k := by
  induction k generalizing s with
  | zero => rfl
  | succ n ih =>
      rw [List.range'_succ, List.map_cons, Nat.mod_eq_of_lt (by omega),
        ih (s + 1) (by omega)]

/-- Claim C6: every handshake message stamped during `prepare` receives
`message_sequence` equal to the number of handshake messages previously
stamped on this connection — the value of
`state.handshake_send_sequence`, through the source's `as u16` cast, and
exactly that value while the total stays below `2^16`; the counter only
ever increases (across every FSM step, given flights that do not touch
it, as none of the repository's flights do); and a retransmission — a
timer expiry moving `Waiting` (with a retransmitting flight) or
`Finished` to `Sending` — re-enqueues the stored flight packets
unchanged, so retransmitted handshake messages carry their original
`message_sequence` values. -/
theorem C6_message_sequence_stamping {Fl : Type} (I : FlightIface Fl)
    (hI : PreservesSendSequence I) (cfg : HandshakeCfg) (now : Nat) (c : Conn Fl) :
    (∀ st c' pkts, prepare I cfg c = .ok (st, c') → c'.flights = some pkts →
        handshake_seqs pkts =
            (List.range' c.state.handshake_send_sequence (handshake_count pkts)).map
              (· % 2 ^ 16)
        ∧ c'.state.handshake_send_sequence =
            c.state.handshake_send_sequence + handshake_count pkts
        ∧ (c.state.handshake_send_sequence + handshake_count pkts ≤ 2 ^ 16 →
            handshake_seqs pkts =
              List.range' c.state.handshake_send_sequence (handshake_count pkts)))
    ∧ (∀ st c', handshake_step I cfg now c = .ok (st, c') →
        c.state.handshake_send_sequence ≤ c'.state.handshake_send_sequence)
    ∧ (∀ st c', send I cfg now c = .ok (st, c') →
        c'.outgoing_packets = c.outgoing_packets ++ c.flights.getD []
        ∧ c'.flights = c.flights
        ∧ c'.state = c.state)
    ∧ (c.current_handshake_state = .waiting → c.retransmit = true →
        ∀ fuel, handshake_timeout I cfg now fuel c =
          handshake_fuel I cfg now fuel { c with current_handshake_state := .sending })
    ∧ (c.current_handshake_state = .finished →
        ∀ fuel, handshake_timeout I cfg now fuel c =
          handshake_fuel I cfg now fuel { c with current_handshake_state := .sending }) := by
  refine ⟨?_, ?_, ?_, ?_, ?_⟩
  · intro st c' pkts hp hfl
    rcases prepare_cases I hI cfg c st c' hp with ⟨hnone, -⟩ | ⟨pkts', hsome, hseqs, hhss⟩
    · rw [hnone] at hfl; cases hfl
    · rw [hsome] at hfl
      injection hfl with hfl
      subst hfl
      refine ⟨hseqs, hhss, fun hbound => ?_⟩
      rw [hseqs, map_mod_range' _ _ _ hbound]
  · intro st c' hs
    exact handshake_step_hss_mono I hI cfg now c st c' hs
  · intro st c' hs
    exact send_spec I cfg now c st c' hs
  · intro hw hr fuel
    exact handshake_timeout_waiting I cfg now fuel c hw hr
  · intro hf fuel
    exact handshake_timeout_finished I cfg now fuel c hf

/-- Witness for C6: on a concrete connection with counter 0, the prepared
flight's handshake record is stamped 0 and the counter advances to 1; and
a fired timer in `Waiting` re-enters the loop at `Sending`. -/
theorem C6_message_sequence_stamping_witness :
    (handshake_seqs stamped_flight_packets =
        (List.range' 0 (handshake_count stamped_flight_packets)).map (· % 2 ^ 16))
    ∧ handshake_timeout triv_flight_iface test_handshake_cfg 0 2 waiting_conn =
        handshake_fuel triv_flight_iface test_handshake_cfg 0 2
          { waiting_conn with current_handshake_state := .sending } :=
  ⟨((C6_message_sequence_stamping stamping_flight_iface (fun _ _ => ⟨rfl, rfl⟩)
      test_handshake_cfg 0 prep_conn).1 _ _ stamped_flight_packets rfl rfl).1,
   ((C6_message_sequence_stamping triv_flight_iface (fun _ _ => ⟨rfl, rfl⟩)
      test_handshake_cfg 0 waiting_conn).2.2.2.1) rfl rfl 2⟩

/-- Agent `b` derives from agent `a` without touching any pair's
binding-request count or the request bound: every pair of `b` has the
count of some pair of `a`. -/
def counts_preserved (a b : Agent) : Prop :=
  b.max_binding_requests = a.max_binding_requests
  ∧ ∀ p ∈ b.checklist, ∃ q ∈ a.checklist,
      p.binding_request_count = q.binding_request_count

/-- `counts_preserved` is reflexive. -/
theorem cp_refl (a : Agent) : counts_preserved a a :=
  ⟨rfl, fun p hp => ⟨p, hp, rfl⟩⟩

/-- `counts_preserved` composes. -/
theorem cp_trans {a b c : Agent} (h1 : counts_preserved a b)
    (h2 : counts_preserved b c) : counts_preserved a c := by
  refine ⟨h2.1.trans h1.1, fun p hp => ?_⟩
  obtain ⟨q, hq, hpq⟩ := h2.2 p hp
  obtain ⟨r, hr, hqr⟩ := h1.2 q hq
  exact ⟨r, hr, hpq.trans hqr⟩

/-- Same bound and same checklist means counts preserved. -/
theorem cp_of_eq {a b : Agent} (hmax : b.max_binding_requests = a.max_binding_requests)
    (hcl : b.checklist = a.checklist) : counts_preserved a b := by
  refine ⟨hmax, fun p hp => ⟨p, ?_, rfl⟩⟩
  rw [← hcl]; exact hp

/-- Mapping the checklist with a count-preserving function preserves
counts. -/
theorem cp_of_map {a b : Agent} (f : CandidatePair → CandidatePair)
    (hmax : b.max_binding_requests = a.max_binding_requests)
    (hcl : b.checklist = a.checklist.map f)
    (hf : ∀ p, (f p).binding_request_count = p.binding_request_count) :
    counts_preserved a b := by
  refine ⟨hmax, fun p hp => ?_⟩
  rw [hcl, List.mem_map] at hp
  obtain ⟨q, hq, hfq⟩ := hp
  exact ⟨q, hq, by rw [← hfq, hf]⟩

/-- `counts_preserved` transports the count bound. -/
theorem counts_ok_of_cp {a b : Agent} (hcp : counts_preserved a b)
    (h : checklist_counts_ok a) : checklist_counts_ok b := by
  intro p hp
  obtain ⟨q, hq, hpq⟩ := hcp.2 p hp
  rw [hpq, hcp.1]
  exact h q hq

/-- `update_connection_state` never touches the checklist or the bound. -/
theorem cp_update_connection_state (a : Agent) (s : IceConnectionState) :
    counts_preserved a (a.update_connection_state s) := by
  unfold Agent.update_connection_state
  split_ifs <;> exact cp_of_eq rfl rfl

/-- `select_pair` only nominates pairs. -/
theorem cp_select_pair (a : Agent) (p : CandidatePair) :
    counts_preserved a (a.select_pair p) := by
  unfold Agent.select_pair
  refine cp_trans (b := { a with
      selected_pair := some { p with nominated := true }
      checklist := a.checklist.map (fun q =>
        if q.same_endpoints p.local_c p.remote then { q with nominated := true } else q) })
    ?_ (cp_update_connection_state _ _)
  refine cp_of_map _ rfl rfl ?_
  intro q
  split <;> rfl

/-- `touch_remote` only stamps liveness timestamps. -/
theorem cp_touch_remote (a : Agent) (rc : Candidate) (now : Nat) :
    counts_preserved a (a.touch_remote rc now) := by
  refine cp_of_map _ rfl rfl ?_
  intro q
  split <;> rfl

/-- `invalidate_pending_binding_requests` only touches the pending LRU. -/
theorem cp_invalidate (a : Agent) (t : Nat) :
    counts_preserved a (a.invalidate_pending_binding_requests t) :=
  cp_of_eq rfl rfl

/-- `take_pending_binding_request` only touches the pending LRU. -/
theorem cp_take_pending (a : Agent) (id now : Nat) :
    counts_preserved a (a.take_pending_binding_request id now).1 := by
  unfold Agent.take_pending_binding_request
  cases hf : List.find? (fun br => br.transaction_id == id)
      (a.invalidate_pending_binding_requests now).pending_binding_requests with
  | none => simp only [hf]; exact cp_invalidate a now
  | some br => simp only [hf]; exact cp_of_eq rfl rfl

/-- `handle_success_response` never touches a count. -/
theorem cp_handle_success_response (a : Agent) (m : StunMessage)
    (l rc : Candidate) (now : Nat) :
    counts_preserved a (a.handle_success_response m l rc now) := by
  unfold Agent.handle_success_response
  rcases htake : a.take_pending_binding_request m.transaction_id now with ⟨a1, br?⟩
  have hcp1 : counts_preserved a a1 := by
    have := cp_take_pending a m.transaction_id now
    rwa [htake] at this
  simp only [htake]
  cases br? with
  | none => exact hcp1
  | some br =>
      have hcp2 : counts_preserved a1 { a1 with checklist := a1.checklist.map (fun p =>
          if p.same_endpoints l rc then
            { p with state := .succeeded, nominated := p.nominated || br.is_use_candidate }
          else p) } := by
        refine cp_of_map _ rfl rfl ?_
        intro q
        split <;> rfl
      refine cp_trans hcp1 (cp_trans hcp2 ?_)
      dsimp only
      split
      · split
        · exact cp_select_pair _ _
        · exact cp_refl _
      · exact cp_refl _

/-- `handle_binding_request` never touches a count. -/
theorem cp_handle_binding_request (a : Agent) (m : StunMessage)
    (l rc : Candidate) :
    counts_preserved a (a.handle_binding_request m l rc).1 := by
  unfold Agent.handle_binding_request
  dsimp only
  split
  · have hcp2 : counts_preserved a { a with checklist := a.checklist.map (fun p =>
        if p.same_endpoints l rc then { p with nominated := true } else p) } := by
      refine cp_of_map _ rfl rfl ?_
      intro q
      split <;> rfl
    refine cp_trans hcp2 ?_
    dsimp only
    split
    · split
      · exact cp_select_pair _ _
      · exact cp_refl _
    · exact cp_refl _
  · exact cp_refl _

/-- `handle_inbound` never touches a count. -/
theorem cp_handle_inbound (a : Agent) (m : StunMessage) (l : Candidate)
    (remote : SockAddr) (now : Nat) :
    counts_preserved a (a.handle_inbound m l remote now).1 := by
  unfold Agent.handle_inbound
  split
  · exact cp_refl _
  split
  · exact cp_refl _
  split
  · exact cp_refl _
  split
  · exact cp_refl _
  dsimp only
  split
  · -- success-response class
    split
    · exact cp_refl _
    · split
      · exact cp_trans (cp_handle_success_response _ _ _ _ _) (cp_touch_remote _ _ _)
      · exact cp_refl _
  · split
    · -- request class
      split
      · exact cp_refl _
      · split
        · exact cp_refl _
        · split
          · rename_i rc heq
            rcases hbr : a.handle_binding_request m l rc with ⟨a1, out⟩
            have hcp := cp_handle_binding_request a m l rc
            rw [hbr] at hcp
            simp only [hbr]
            exact cp_trans hcp (cp_touch_remote _ _ _)
          · exact cp_refl _
    · -- indication class
      split
      · exact cp_touch_remote _ _ _
      · exact cp_refl _

/-- One `ping_all_candidates` step keeps every count at most one past the
bound: a pair already past the bound is failed without a further
increment, and a pair within the bound is incremented at most to
`max + 1`. -/
theorem ping_pair_count (mx : Nat) (p : CandidatePair)
    (h : p.binding_request_count ≤ mx + 1) :
    ((ping_pair mx p).1).binding_request_count ≤ mx + 1 := by
  obtain ⟨lc, rc, ic, st, nom, cnt⟩ := p
  simp only at h
  by_cases ho : mx < cnt <;>
    cases st <;>
      simp [ping_pair, ho] <;>
        omega

/-- The pair walked past the bound is failed, not pinged, and its count
is untouched. -/
theorem ping_pair_over (mx : Nat) (p : CandidatePair)
    (hst : p.state = CandidatePairState.waiting ∨ p.state = CandidatePairState.inProgress)
    (ho : mx < p.binding_request_count) :
    (ping_pair mx p).2 = none
    ∧ ((ping_pair mx p).1).state = .failed
    ∧ ((ping_pair mx p).1).binding_request_count = p.binding_request_count := by
  obtain ⟨lc, rc, ic, st, nom, cnt⟩ := p
  simp only at hst ho ⊢
  rcases hst with h1 | h1 <;> subst h1 <;> simp [ping_pair, ho]

/-- `ping_candidate` never touches the checklist or the bound. -/
theorem ping_candidate_frame (a : Agent) (now : Nat) (l r : Candidate) :
    ((a.ping_candidate now l r).1).checklist = a.checklist
    ∧ ((a.ping_candidate now l r).1).max_binding_requests = a.max_binding_requests :=
  ⟨rfl, rfl⟩

/-- The ping loop of `ping_all_candidates` never touches the checklist or
the bound. -/
theorem ping_loop_frame (now : Nat) (prs : List (Candidate × Candidate)) :
    ∀ (acc : Agent × List Transmit),
      ((prs.foldl (fun (acc : Agent × List Transmit) lr =>
          let (a2, out) := acc.1.ping_candidate now lr.1 lr.2
          (a2, acc.2 ++ out)) acc).1).checklist = acc.1.checklist
      ∧ ((prs.foldl (fun (acc : Agent × List Transmit) lr =>
          let (a2, out) := acc.1.ping_candidate now lr.1 lr.2
          (a2, acc.2 ++ out)) acc).1).max_binding_requests =
            acc.1.max_binding_requests := by
  induction prs with
  | nil => intro acc; exact ⟨rfl, rfl⟩
  | cons lr prs ih =>
      intro acc
      rw [List.foldl_cons]
      rcases hping : acc.1.ping_candidate now lr.1 lr.2 with ⟨a2, out⟩
      have hframe := ping_candidate_frame acc.1 now lr.1 lr.2
      rw [hping] at hframe
      simp only [hping]
      obtain ⟨ih1, ih2⟩ := ih (a2, acc.2 ++ out)
      exact ⟨ih1.trans hframe.1, ih2.trans hframe.2⟩

/-- `ping_all_candidates` keeps every count at most one past the bound. -/
theorem counts_ok_ping_all (a : Agent) (now : Nat)
    (h : checklist_counts_ok a) :
    checklist_counts_ok ((a.ping_all_candidates now).1) := by
  intro p hp
  unfold Agent.ping_all_candidates at hp ⊢
  dsimp only at hp ⊢
  obtain ⟨hcl, hmax⟩ := ping_loop_frame now
    ((a.checklist.map (ping_pair a.max_binding_requests)).filterMap Prod.snd)
    ({ a with checklist :=
        (a.checklist.map (ping_pair a.max_binding_requests)).map Prod.fst }, [])
  rw [hmax]
  rw [hcl] at hp
  dsimp only at hp
  rw [List.map_map] at hp
  rw [List.mem_map] at hp
  obtain ⟨q, hq, hfq⟩ := hp
  rw [← hfq]
  exact ping_pair_count a.max_binding_requests q (h q hq)

/-- `add_pair` appends a fresh pair with count zero. -/
theorem counts_ok_add_pair (a : Agent) (l r : Candidate)
    (h : checklist_counts_ok a) : checklist_counts_ok (a.add_pair l r) := by
  intro p hp
  unfold Agent.add_pair at hp
  dsimp only at hp
  rcases List.mem_append.mp hp with hmem | hmem
  · exact h p hmem
  · rw [List.mem_singleton] at hmem
    subst hmem
    exact Nat.zero_le _

/-- Folding `add_pair` over remote candidates keeps the bound. -/
theorem counts_ok_foldl_add_pair_remote (c : Candidate) (rs : List Candidate) :
    ∀ (a : Agent), checklist_counts_ok a →
      checklist_counts_ok (rs.foldl (fun acc r => acc.add_pair c r) a) := by
  induction rs with
  | nil => intro a h; exact h
  | cons r rs ih =>
      intro a h
      rw [List.foldl_cons]
      exact ih _ (counts_ok_add_pair a c r h)

/-- Folding `add_pair` over local candidates keeps the bound. -/
theorem counts_ok_foldl_add_pair_local (c : Candidate) (ls : List Candidate) :
    ∀ (a : Agent), checklist_counts_ok a →
      checklist_counts_ok (ls.foldl (fun acc l => acc.add_pair l c) a) := by
  induction ls with
  | nil => intro a h; exact h
  | cons l ls ih =>
      intro a h
      rw [List.foldl_cons]
      exact ih _ (counts_ok_add_pair a l c h)

/-- `add_local_candidate` keeps the bound. -/
theorem counts_ok_add_local (a : Agent) (c : Candidate)
    (h : checklist_counts_ok a) :
    checklist_counts_ok (a.add_local_candidate c) := by
  unfold Agent.add_local_candidate
  split
  · exact h
  · exact counts_ok_foldl_add_pair_remote c _ _ h

/-- `add_remote_candidate` keeps the bound. -/
theorem counts_ok_add_remote (a : Agent) (c : Candidate) (a' : Agent)
    (hr : a.add_remote_candidate c = .ok a')
    (h : checklist_counts_ok a) : checklist_counts_ok a' := by
  unfold Agent.add_remote_candidate at hr
  split at hr
  · exact Except.noConfusion hr
  · split at hr
    · injection hr with hr
      subst hr
      exact h
    · injection hr with hr
      subst hr
      exact counts_ok_foldl_add_pair_local c _ _ h

/-- `restart` empties the checklist. -/
theorem restart_checklist (a : Agent) (u p : String) (a' : Agent)
    (hr : a.restart u p = .ok a') : a'.checklist = [] := by
  unfold Agent.restart at hr
  dsimp only at hr
  split_ifs at hr <;>
    first
      | exact Except.noConfusion hr
      | (injection hr with hr
         subst hr
         rfl)
      | (injection hr with hr
         subst hr
         unfold Agent.update_connection_state
         split_ifs <;> rfl)

/-- Every public operation keeps every count at most one past the
bound. -/
theorem counts_ok_apply_op (a : Agent) (op : AgentOp)
    (h : checklist_counts_ok a) : checklist_counts_ok (a.apply_op op) := by
  cases op with
  | addLocal c => exact counts_ok_add_local a c h
  | addRemote c =>
      unfold Agent.apply_op
      cases hr : a.add_remote_candidate c with
      | ok a' => simp only [hr]; exact counts_ok_add_remote a c a' hr h
      | error e => simp only [hr]; exact h
  | pingAll now => exact counts_ok_ping_all a now h
  | inbound m l remote now =>
      exact counts_ok_of_cp (cp_handle_inbound a m l remote now) h
  | restartOp u p =>
      unfold Agent.apply_op
      cases hr : a.restart u p with
      | ok a' =>
          simp only [hr]
          intro q hq
          rw [restart_checklist a u p a' hr] at hq
          exact absurd hq (List.not_mem_nil q)
      | error e => simp only [hr]; exact h

/-- Any operation sequence keeps every count at most one past the
bound. -/
theorem counts_ok_apply_ops (ops : List AgentOp) :
    ∀ (a : Agent), checklist_counts_ok a →
      checklist_counts_ok (a.apply_ops ops) := by
  induction ops with
  | nil => intro a h; exact h
  | cons op ops ih =>
      intro a h
      unfold Agent.apply_ops
      rw [List.foldl_cons]
      exact ih _ (counts_ok_apply_op a op h)

/-- A freshly constructed agent has an empty checklist. -/
theorem agent_new_checklist (defaults : List CandidateType)
    (config : AgentConfig) (a : Agent)
    (h : Agent.new defaults config = .ok a) : a.checklist = [] := by
  unfold Agent.new at h
  dsimp only at h
  split_ifs at h <;>
    first
      | exact Except.noConfusion h
      | exact restart_checklist _ _ _ _ h

/-- Claim C2 (counterexample): an agent constructed with
`max_binding_requests = 0`, given one local and one remote candidate and
one `ping_all_candidates` call, holds a pair with
`binding_request_count = 1 > max_binding_requests`: the source increments
first and only fails a pair on a *later* walk, so counts reach
`max_binding_requests + 1`. -/
theorem C2_binding_count_counterexample :
    Agent.new [CandidateType.host] test_agent_config = .ok test_agent
    ∧ ((test_agent.apply_ops [.addLocal test_local_candidate,
          .addRemote test_remote_candidate, .pingAll 0]).checklist.map
        (fun (p : CandidatePair) => p.binding_request_count)) = [1]
    ∧ (test_agent.apply_ops [.addLocal test_local_candidate,
          .addRemote test_remote_candidate, .pingAll 0]).max_binding_requests = 0
    ∧ ¬(1 ≤ (0 : Nat)) :=
  ⟨by rfl, by decide, by decide, by decide⟩

/-- Claim C2 (amended): after any sequence of agent operations
(`add_local_candidate`, `add_remote_candidate`, `ping_all_candidates`,
`handle_inbound`, `restart`) starting from a freshly constructed agent,
every candidate pair in the checklist satisfies
`binding_request_count ≤ max_binding_requests + 1` — one more than the
claimed bound, because `ping_all_candidates` increments first and only
fails the pair on the next walk; and `ping_all_candidates` does mark a
pair `Failed` instead of sending a further binding request once its count
exceeds `max_binding_requests`, leaving the count untouched. -/
theorem C2_binding_count_invariant (defaults : List CandidateType)
    (config : AgentConfig) (a : Agent) (ops : List AgentOp)
    (hnew : Agent.new defaults config = .ok a) :
    (∀ p ∈ (a.apply_ops ops).checklist,
        p.binding_request_count ≤ (a.apply_ops ops).max_binding_requests + 1)
    ∧ (∀ (mx : Nat) (p : CandidatePair),
        (p.state = .waiting ∨ p.state = .inProgress) →
        mx < p.binding_request_count →
        (ping_pair mx p).2 = none
        ∧ ((ping_pair mx p).1).state = .failed
        ∧ ((ping_pair mx p).1).binding_request_count = p.binding_request_count) := by
  constructor
  · have hempty : checklist_counts_ok a := by
      intro p hp
      rw [agent_new_checklist defaults config a hnew] at hp
      exact absurd hp (List.not_mem_nil p)
    exact counts_ok_apply_ops ops a hempty
  · intro mx p hst ho
    exact ping_pair_over mx p hst ho

/-- Witness for C2 (amended): the bound `max + 1` holds for the one pair
of the concrete trace that violates the claimed bound `max`. -/
theorem C2_binding_count_invariant_witness :
    ((test_agent.apply_ops [.addLocal test_local_candidate,
        .addRemote test_remote_candidate, .pingAll 0]).checklist.getD 0
        (CandidatePair.new test_local_candidate test_remote_candidate
          false)).binding_request_count ≤
      (test_agent.apply_ops [.addLocal test_local_candidate,
        .addRemote test_remote_candidate, .pingAll 0]).max_binding_requests + 1 :=
  (C2_binding_count_invariant [CandidateType.host] test_agent_config test_agent
    [.addLocal test_local_candidate, .addRemote test_remote_candidate, .pingAll 0]
    (by rfl)).1 _ (by decide)

end Ortc
